import Mathlib

/-!
Verification of the sweet-expr front end: a shallow embedding of
`src/lexer.rs` (token type), `src/value.rs` (atom tree) and `src/parser.rs`
(whitespace normalizer `handle_whitespace` and the recursive-descent parser),
together with theorems settling the specification claims.

Rust machine integers (`usize`) are modelled as `Nat`; spans never overflow in
any reachable computation, and the two `cur_tok - 1` underflow sites are
modelled with release semantics (out-of-range lookup yields `none`) and proved
unreachable where the Rust code unwraps.  Rust `panic!`-class exits
(`todo!()`, `unreachable!()`, `.unwrap()` on `None`) are modelled by the
explicit `POut.panicked` outcome; the bounded recursion of the parser is
modelled with an explicit fuel argument whose exhaustion is `POut.nofuel`.
-/

namespace SweetExpr

/-- Byte span `start..end` (`end` is called `stop` since `end` is reserved). -/
structure Span where
  start : Nat
  stop : Nat
deriving DecidableEq, Repr

/-- Tokens: `Token<'src>` from src/lexer.rs. String payloads stand for the `&str`
slices; `spaces` payloads consist of single-byte characters (` `, tab,
formfeed) so `String.length` agrees with Rust's byte-based `str::len`. -/
inductive Token where
  | identifier (s : String)
  | string (s : String)
  | comment
  | parenOpen
  | parenClose
  | curlyOpen
  | curlyClose
  | bracketOpen
  | bracketClose
  | newline
  | spaces (s : String)
  | error (s : String)
  | indent
  | dedent
deriving DecidableEq, Repr

/-- Group kinds: `GroupType` from src/value.rs. -/
inductive GroupType where
  | indentation
  | parenthesis
  | curly
  | bracket
deriving DecidableEq, Repr

mutual
/-- Atoms: `Atom<'src>` from src/value.rs (spans inlined in place of `Spanned`). -/
inductive Atom where
  | identifier (s : String) (span : Span)
  | string (s : String) (span : Span)
  | group (g : SGroup)
  | neoteric (lhs : Atom) (rhs : SGroup)
deriving Repr

/-- Groups: `Group<'src>` from src/value.rs (named `SGroup` to avoid clashing with
Mathlib's `Group`; `start_delim`/`end_delim` keep only their spans since the
payload is `()`). -/
inductive SGroup where
  | mk (group_type : GroupType) (start_delim : Span) (children : List Atom) (end_delim : Span)
deriving Repr
end

/-- Parse errors: `ParseError<'src>` from src/parser.rs. -/
inductive ParseError where
  | mismatchedToken (expected : Token) (found : Token) (span : Span)
  | expectedTokFoundEof (expected : Token) (pos : Option Nat)
  | expectedEofFoundToken (found : Token) (span : Span)
deriving DecidableEq, Repr

/-! Section: The whitespace normalizer (`handle_whitespace`, src/parser.rs:253-467) -/

/-- The local `State` enum of `handle_whitespace`. -/
inductive HWState where
  | start
  | startOfLine
  | inLine
  | ignore (n : Nat)
deriving DecidableEq, Repr

/-- The mutable context of the `handle_whitespace` loop: the indentation
stack `indents` (top of the Rust `Vec` = head of the list), the output
buffer `toks`, and the current state. -/
structure HWAcc where
  indents : List Nat
  toks : List (Token × Span)
  state : HWState
deriving Repr

/-- Function `pop_stack` (src/parser.rs:269-282).  Pops while the top is greater
than `level`; `ok n` when a level equal to `level` (or the implicit bottom
`0`) is reached after `n` pops, `error` when the walk jumps below `level`.
The returned list is the stack after the pops (the Rust function mutates
its argument, also in the error case). -/
def pop_stack : List Nat → Nat → Except Unit Nat × List Nat
  | [], level =>
    if 0 < level then (Except.error (), []) else (Except.ok 0, [])
  | top :: rest, level =>
    if top < level then (Except.error (), top :: rest)
    else if top = level then (Except.ok 0, top :: rest)
    else
      match pop_stack rest level with
      | (Except.ok n, st) => (Except.ok (n + 1), st)
      | (Except.error e, st) => (Except.error e, st)

/-- The `Token::Spaces(s)` handling shared by the `Start` and `StartOfLine`
states (src/parser.rs:297-316 and 380-399): measure the width, push/emit
`Indent` on a deeper level, otherwise pop with `pop_stack`, emitting one
`Dedent` per popped level or an invalid-indentation `Error`. -/
def handle_spaces (indents : List Nat) (toks : List (Token × Span)) (s : String) (span : Span) :
    List Nat × List (Token × Span) :=
  if s.length > indents.headD 0 then
    (s.length :: indents, toks ++ [(Token.indent, span)])
  else
    match pop_stack indents s.length with
    | (Except.ok n, st) => (st, toks ++ List.replicate n (Token.dedent, span))
    | (Except.error _, st) => (st, toks ++ [(Token.error "Invalid indentation", span)])

/-- Tokens exempt from the `StartOfLine` dedent check (src/parser.rs:339). -/
def is_line_ws : Token → Bool
  | Token.spaces _ | Token.newline | Token.comment => true
  | _ => false

/-- The dedent-to-zero check at the start of `State::StartOfLine` for
non-whitespace tokens (src/parser.rs:340-354). -/
def sol_dedent_check (indents : List Nat) (toks : List (Token × Span)) (span : Span) :
    List Nat × List (Token × Span) :=
  if 0 < indents.headD 0 then
    match pop_stack indents 0 with
    | (Except.ok n, st) => (st, toks ++ List.replicate n (Token.dedent, span))
    | (Except.error _, st) => (st, toks ++ [(Token.error "Invalid indentation", span)])
  else (indents, toks)

/-- One iteration of the `for (tok, span) in tokens` loop of
`handle_whitespace` (src/parser.rs:284-464). -/
def hwStep (acc : HWAcc) (ts : Token × Span) : HWAcc :=
  match acc, ts with
  | ⟨indents, toks, state⟩, (tok, span) =>
    match state with
    | HWState.start =>
      match tok with
      | Token.identifier _ | Token.string _ => ⟨indents, toks ++ [(tok, span)], HWState.inLine⟩
      | Token.comment => ⟨indents, toks, HWState.start⟩
      | Token.spaces s =>
        let q := handle_spaces indents toks s span
        ⟨q.1, q.2, HWState.inLine⟩
      | Token.parenOpen | Token.curlyOpen | Token.bracketOpen =>
        ⟨indents, toks ++ [(tok, span)], HWState.ignore 1⟩
      | Token.parenClose | Token.curlyClose | Token.bracketClose =>
        ⟨indents, toks ++ [(tok, span)], HWState.inLine⟩
      | Token.newline => ⟨indents, toks, HWState.start⟩
      | Token.error _ | Token.indent | Token.dedent =>
        ⟨indents, toks ++ [(tok, span)], HWState.start⟩
    | HWState.startOfLine =>
      let p := if is_line_ws tok then (indents, toks) else sol_dedent_check indents toks span
      match tok with
      | Token.identifier _ | Token.string _ => ⟨p.1, p.2 ++ [(tok, span)], HWState.inLine⟩
      | Token.comment => ⟨p.1, p.2, HWState.startOfLine⟩
      | Token.parenOpen | Token.curlyOpen | Token.bracketOpen =>
        ⟨p.1, p.2 ++ [(tok, span)], HWState.ignore 1⟩
      | Token.parenClose | Token.curlyClose | Token.bracketClose =>
        ⟨p.1, p.2 ++ [(tok, span)], HWState.inLine⟩
      | Token.newline => ⟨p.1, p.2, HWState.startOfLine⟩
      | Token.spaces s =>
        let q := handle_spaces p.1 p.2 s span
        ⟨q.1, q.2, HWState.inLine⟩
      | Token.error _ | Token.indent | Token.dedent =>
        ⟨p.1, p.2 ++ [(tok, span)], HWState.inLine⟩
    | HWState.inLine =>
      match tok with
      | Token.identifier _ | Token.string _ => ⟨indents, toks ++ [(tok, span)], HWState.inLine⟩
      | Token.comment => ⟨indents, toks, HWState.inLine⟩
      | Token.parenOpen | Token.curlyOpen | Token.bracketOpen =>
        ⟨indents, toks ++ [(tok, span)], HWState.ignore 1⟩
      | Token.parenClose | Token.curlyClose | Token.bracketClose =>
        ⟨indents, toks ++ [(tok, span)], HWState.inLine⟩
      | Token.newline => ⟨indents, toks ++ [(tok, span)], HWState.startOfLine⟩
      | Token.spaces _ => ⟨indents, toks, HWState.inLine⟩
      | Token.error _ | Token.indent | Token.dedent =>
        ⟨indents, toks ++ [(tok, span)], HWState.inLine⟩
    | HWState.ignore n =>
      match tok with
      | Token.identifier _ | Token.string _ => ⟨indents, toks ++ [(tok, span)], HWState.ignore n⟩
      | Token.comment => ⟨indents, toks, HWState.ignore n⟩
      | Token.parenOpen | Token.curlyOpen | Token.bracketOpen =>
        ⟨indents, toks ++ [(tok, span)], HWState.ignore (n + 1)⟩
      | Token.parenClose | Token.curlyClose | Token.bracketClose =>
        ⟨indents, toks ++ [(tok, span)],
          if n = 1 then HWState.inLine else HWState.ignore (n - 1)⟩
      | Token.newline | Token.spaces _ => ⟨indents, toks, HWState.ignore n⟩
      | Token.error _ | Token.indent | Token.dedent =>
        ⟨indents, toks ++ [(tok, span)], HWState.ignore n⟩

/-- Function `handle_whitespace` (src/parser.rs:253-467): fold `hwStep` over the raw
stream starting from an empty stack, empty output and `State::Start`. -/
def handle_whitespace (tokens : List (Token × Span)) : List (Token × Span) :=
  (tokens.foldl hwStep ⟨[], [], HWState.start⟩).toks

/-! Section: The recursive-descent parser (`Parser`, src/parser.rs:22-251)

The parser state is the logical token vector `toks` plus the cursor
`cur_tok`, threaded explicitly.  An outcome carries the value and the new
cursor; `panicked` models the `todo!()`, `unreachable!()` and `.unwrap()`
exits, and `nofuel` exhaustion of the explicit recursion fuel. -/

inductive POut (α : Type) where
  | ok (a : α) (cur : Nat)
  | err (e : ParseError)
  | panicked
  | nofuel
deriving Repr

/-- Sequencing of parser outcomes: `?`-propagation of errors plus
propagation of the panic/fuel outcomes. -/
def pbind {α β : Type} (x : POut α) (f : α → Nat → POut β) : POut β :=
  match x with
  | POut.ok a cur => f a cur
  | POut.err e => POut.err e
  | POut.panicked => POut.panicked
  | POut.nofuel => POut.nofuel

/-- Lookahead `Parser::peek_tok(0)` (src/parser.rs:39-41); every call site passes `n = 0`. -/
def peekTok (toks : List (Token × Span)) (cur : Nat) : Option (Token × Span) :=
  toks[cur]?

/-- The token kinds accepted by `Parser::atom_start` (src/parser.rs:209-221). -/
def is_atom_start_tok : Token → Bool
  | Token.parenOpen | Token.bracketOpen | Token.curlyOpen
  | Token.identifier _ | Token.string _ => true
  | _ => false

/-- Predicate `Parser::atom_start` (src/parser.rs:209-221). -/
def atom_start (toks : List (Token × Span)) (cur : Nat) : Bool :=
  match peekTok toks cur with
  | none => false
  | some (t, _) => is_atom_start_tok t

/-- Opening-bracket test used by the neoteric lookahead (src/parser.rs:184). -/
def is_open_tok : Token → Bool
  | Token.parenOpen | Token.bracketOpen | Token.curlyOpen => true
  | _ => false

/-- Helper `Parser::last_tok_span` (src/parser.rs:43-45).  At `cur = 0` the Rust
`cur_tok - 1` underflows and the lookup misses (release semantics), so the
result is `none`. -/
def last_tok_span (toks : List (Token × Span)) (cur : Nat) : Option Span :=
  if cur = 0 then none else (toks[cur - 1]?).map (fun x => x.2)

/-- Method `Parser::expect` (src/parser.rs:47-70). -/
def expect (toks : List (Token × Span)) (cur : Nat) (expected : Token) :
    Except ParseError ((Token × Span) × Nat) :=
  match peekTok toks cur with
  | some (tok, span) =>
    if tok = expected then Except.ok ((tok, span), cur + 1)
    else Except.error (ParseError.mismatchedToken expected tok span)
  | none =>
    Except.error (ParseError.expectedTokFoundEof expected
      ((last_tok_span toks cur).map (fun s => s.stop)))

/-- The tail of `Parser::parse_explicit_group` (src/parser.rs:235-249):
expect the matching closer and build the group. -/
def close_group (toks : List (Token × Span)) (cur : Nat) (expected : Token)
    (gt : GroupType) (start_span : Span) (children : List Atom) : POut SGroup :=
  match expect toks cur expected with
  | Except.ok ((_, end_span), cur') => POut.ok (SGroup.mk gt start_span children end_span) cur'
  | Except.error e => POut.err e

/-- The fall-through tail of `Parser::parse_maybe_indent_group`
(src/parser.rs:157-168): collapse a singleton child, otherwise wrap in an
`Indentation` group ending at the span of the last consumed token
(`last_tok_span().unwrap()` panics when there is none). -/
def indent_group_finish (toks : List (Token × Span)) (cur : Nat) (start_span : Span)
    (children : List Atom) : POut Atom :=
  match children with
  | [a] => POut.ok a cur
  | _ =>
    match last_tok_span toks cur with
    | some end_span =>
      POut.ok (Atom.group (SGroup.mk GroupType.indentation start_span children end_span)) cur
    | none => POut.panicked

mutual
/-- Method `Parser::parse_atom` (src/parser.rs:171-207).  The two `todo!()` arms
(no token at all, and a token no atom starts with) are `panicked`. -/
def parse_atom (toks : List (Token × Span)) (cur : Nat) : Nat → POut Atom
  | 0 => POut.nofuel
  | fuel + 1 =>
    match peekTok toks cur with
    | none => POut.panicked
    | some (tok, span) =>
      match tok with
      | Token.parenOpen | Token.bracketOpen | Token.curlyOpen =>
        pbind (parse_explicit_group toks cur fuel) (fun g cur' => POut.ok (Atom.group g) cur')
      | Token.identifier ident =>
        match peekTok toks (cur + 1) with
        | some (t2, next_span) =>
          if is_open_tok t2 then
            if next_span.start = span.stop then
              pbind (parse_explicit_group toks (cur + 1) fuel) (fun g cur' =>
                POut.ok (Atom.neoteric (Atom.identifier ident span) g) cur')
            else POut.ok (Atom.identifier ident span) (cur + 1)
          else POut.ok (Atom.identifier ident span) (cur + 1)
        | none => POut.ok (Atom.identifier ident span) (cur + 1)
      | Token.string s => POut.ok (Atom.string s span) (cur + 1)
      | _ => POut.panicked

/-- The `while self.atom_start() { children.push(self.parse_atom()?) }`
loops (src/parser.rs:107-109 and 231-233). -/
def parse_atoms (toks : List (Token × Span)) (cur : Nat) : Nat → POut (List Atom)
  | 0 => POut.nofuel
  | fuel + 1 =>
    if atom_start toks cur then
      pbind (parse_atom toks cur fuel) (fun a cur' =>
        pbind (parse_atoms toks cur' fuel) (fun rest cur'' => POut.ok (a :: rest) cur''))
    else POut.ok [] cur

/-- Method `Parser::parse_explicit_group` (src/parser.rs:223-250).  The `todo!()`
on a missing token and the `unreachable!()` on a non-opening token are
`panicked`. -/
def parse_explicit_group (toks : List (Token × Span)) (cur : Nat) : Nat → POut SGroup
  | 0 => POut.nofuel
  | fuel + 1 =>
    match peekTok toks cur with
    | none => POut.panicked
    | some (tok, start_span) =>
      pbind (parse_atoms toks (cur + 1) fuel) (fun children cur1 =>
        match tok with
        | Token.parenOpen =>
          close_group toks cur1 Token.parenClose GroupType.parenthesis start_span children
        | Token.curlyOpen =>
          close_group toks cur1 Token.curlyClose GroupType.curly start_span children
        | Token.bracketOpen =>
          close_group toks cur1 Token.bracketClose GroupType.bracket start_span children
        | _ => POut.panicked)

/-- Method `Parser::parse_maybe_indent_group` (src/parser.rs:99-169). -/
def parse_maybe_indent_group (toks : List (Token × Span)) (cur : Nat) : Nat → POut Atom
  | 0 => POut.nofuel
  | fuel + 1 =>
    match peekTok toks cur with
    | none => POut.panicked
    | some (_, start_span) =>
      pbind (parse_atoms toks cur fuel) (fun children cur1 =>
        match peekTok toks cur1 with
        | some (Token.newline, _) =>
          match peekTok toks (cur1 + 1) with
          | some (Token.indent, _) =>
            pbind (parse_indent_groups toks (cur1 + 2) fuel) (fun more cur2 =>
              match peekTok toks cur2 with
              | some (Token.dedent, end_span) =>
                POut.ok (Atom.group (SGroup.mk GroupType.indentation start_span
                  (children ++ more) end_span)) (cur2 + 1)
              | some (_, end_span) =>
                POut.ok (Atom.group (SGroup.mk GroupType.indentation start_span
                  (children ++ more) end_span)) cur2
              | none => indent_group_finish toks cur2 start_span (children ++ more))
          | _ => indent_group_finish toks (cur1 + 1) start_span children
        | _ => indent_group_finish toks cur1 start_span children)

/-- The inner `while self.atom_start()` loop of `parse_maybe_indent_group`
(src/parser.rs:122-130), which stops early on a `Dedent` lookahead. -/
def parse_indent_groups (toks : List (Token × Span)) (cur : Nat) : Nat → POut (List Atom)
  | 0 => POut.nofuel
  | fuel + 1 =>
    if atom_start toks cur then
      pbind (parse_maybe_indent_group toks cur fuel) (fun a cur' =>
        match peekTok toks cur' with
        | some (Token.dedent, _) => POut.ok [a] cur'
        | _ =>
          pbind (parse_indent_groups toks cur' fuel) (fun rest cur'' =>
            POut.ok (a :: rest) cur''))
    else POut.ok [] cur

/-- The `while self.atom_start()` loop of `parse_toplevel`
(src/parser.rs:83-85). -/
def parse_mig_list (toks : List (Token × Span)) (cur : Nat) : Nat → POut (List Atom)
  | 0 => POut.nofuel
  | fuel + 1 =>
    if atom_start toks cur then
      pbind (parse_maybe_indent_group toks cur fuel) (fun a cur' =>
        pbind (parse_mig_list toks cur' fuel) (fun rest cur'' => POut.ok (a :: rest) cur''))
    else POut.ok [] cur
end

/-- Method `Parser::parse_toplevel` (src/parser.rs:72-97). -/
def parse_toplevel (toks : List (Token × Span)) (fuel : Nat) : POut (List Atom) :=
  let p :=
    match peekTok toks 0 with
    | some (Token.indent, _) => (true, 1)
    | _ => (false, 0)
  pbind (parse_mig_list toks p.2 fuel) (fun children cur1 =>
    let cur2 :=
      match peekTok toks cur1 with
      | some (Token.dedent, _) => if p.1 then cur1 + 1 else cur1
      | _ => cur1
    match peekTok toks cur2 with
    | some (tok, span) => POut.err (ParseError.expectedEofFoundToken tok span)
    | none => POut.ok children cur2)

/-- Fuel sufficient for any parse of `toks` (proved below): the call depth
of the parser is bounded by four times the token count plus a constant. -/
def parser_fuel (toks : List (Token × Span)) : Nat :=
  4 * toks.length + 8

/-- Pipeline: `Parser::new` followed by `parse_toplevel`: normalize the raw stream,
then parse it (src/parser.rs:28-33 and 72). -/
def parse_source (raw : List (Token × Span)) : POut (List Atom) :=
  parse_toplevel (handle_whitespace raw) (parser_fuel (handle_whitespace raw))

/-! Section: Observations on token streams -/

/-- Number of `Indent` tokens in a stream. -/
def countIndents (l : List (Token × Span)) : Nat :=
  (l.filter (fun x => decide (x.1 = Token.indent))).length

/-- Number of `Dedent` tokens in a stream. -/
def countDedents (l : List (Token × Span)) : Nat :=
  (l.filter (fun x => decide (x.1 = Token.dedent))).length

/-- The stream contains no synthetic `Indent`/`Dedent` tokens.  The raw
character scanner (src/lexer.rs:37-40) never produces them: they "are only
inserted later by the parser". -/
def no_raw_synthetic (l : List (Token × Span)) : Bool :=
  l.all (fun x => !(decide (x.1 = Token.indent) || decide (x.1 = Token.dedent)))

/-- Every `Spaces` payload in the stream is nonempty; guaranteed by the
scanner, whose `Spaces` regex is `[ \t\f]+` (src/lexer.rs:32). -/
def spaces_nonempty (l : List (Token × Span)) : Bool :=
  l.all (fun x => match x.1 with | Token.spaces s => !(decide (s = "")) | _ => true)

/-- Whether a stream starts with a `Newline` token. -/
def starts_with_newline : List (Token × Span) → Bool
  | (Token.newline, _) :: _ => true
  | _ => false

/-- Whether a stream contains two adjacent `Newline` tokens. -/
def has_consecutive_newlines : List (Token × Span) → Bool
  | (Token.newline, _) :: (Token.newline, _) :: _ => true
  | _ :: rest => has_consecutive_newlines rest
  | [] => false

/-! Section: Concrete token streams used by the claims

Raw streams are written exactly as `tokenise` (src/lexer.rs:43-47) produces
them for the quoted sources: maximal-munch tokens with contiguous byte
spans, a trailing-spaces-plus-newline run lexed as one `Newline` token, and
`String` payloads being the full slice including the quotes. -/

/-- Raw tokens of `define test (a b)\n    (print "hello")\n    (another-thing 1 2)`. -/
def c1_input : List (Token × Span) :=
  [(Token.identifier "define", ⟨0, 6⟩), (Token.spaces " ", ⟨6, 7⟩),
   (Token.identifier "test", ⟨7, 11⟩), (Token.spaces " ", ⟨11, 12⟩),
   (Token.parenOpen, ⟨12, 13⟩), (Token.identifier "a", ⟨13, 14⟩),
   (Token.spaces " ", ⟨14, 15⟩), (Token.identifier "b", ⟨15, 16⟩),
   (Token.parenClose, ⟨16, 17⟩), (Token.newline, ⟨17, 18⟩),
   (Token.spaces "    ", ⟨18, 22⟩), (Token.parenOpen, ⟨22, 23⟩),
   (Token.identifier "print", ⟨23, 28⟩), (Token.spaces " ", ⟨28, 29⟩),
   (Token.string "\"hello\"", ⟨29, 36⟩), (Token.parenClose, ⟨36, 37⟩),
   (Token.newline, ⟨37, 38⟩), (Token.spaces "    ", ⟨38, 42⟩),
   (Token.parenOpen, ⟨42, 43⟩), (Token.identifier "another-thing", ⟨43, 56⟩),
   (Token.spaces " ", ⟨56, 57⟩), (Token.identifier "1", ⟨57, 58⟩),
   (Token.spaces " ", ⟨58, 59⟩), (Token.identifier "2", ⟨59, 60⟩),
   (Token.parenClose, ⟨60, 61⟩)]

/-- The parenthesized `(a b)` subtree of the C1 example. -/
def c1_ab_group : Atom :=
  Atom.group (SGroup.mk GroupType.parenthesis ⟨12, 13⟩
    [Atom.identifier "a" ⟨13, 14⟩, Atom.identifier "b" ⟨15, 16⟩] ⟨16, 17⟩)

/-- The `(print "hello")` subtree of the C1 example. -/
def c1_print_group : Atom :=
  Atom.group (SGroup.mk GroupType.parenthesis ⟨22, 23⟩
    [Atom.identifier "print" ⟨23, 28⟩, Atom.string "\"hello\"" ⟨29, 36⟩] ⟨36, 37⟩)

/-- The `(another-thing 1 2)` subtree of the C1 example. -/
def c1_another_group : Atom :=
  Atom.group (SGroup.mk GroupType.parenthesis ⟨42, 43⟩
    [Atom.identifier "another-thing" ⟨43, 56⟩, Atom.identifier "1" ⟨57, 58⟩,
     Atom.identifier "2" ⟨59, 60⟩] ⟨60, 61⟩)

/-- What the parser actually returns for `c1_input`: ONE flat indentation
group with FIVE children; the two indented calls are appended directly to
the outer child list, with no nested indentation group around them. -/
def c1_flat_atom : Atom :=
  Atom.group (SGroup.mk GroupType.indentation ⟨0, 6⟩
    [Atom.identifier "define" ⟨0, 6⟩, Atom.identifier "test" ⟨7, 11⟩,
     c1_ab_group, c1_print_group, c1_another_group] ⟨60, 61⟩)

/-- Number of children of a top-level group atom (discriminator used to
refute the claimed four-child shape). -/
def atom_child_count : Atom → Nat
  | Atom.group (SGroup.mk _ _ children _) => children.length
  | _ => 0

/-- Raw tokens of `a\n  b\n    c`: error-free input ending with two levels
still open. -/
def c2_input : List (Token × Span) :=
  [(Token.identifier "a", ⟨0, 1⟩), (Token.newline, ⟨1, 2⟩),
   (Token.spaces "  ", ⟨2, 4⟩), (Token.identifier "b", ⟨4, 5⟩),
   (Token.newline, ⟨5, 6⟩), (Token.spaces "    ", ⟨6, 10⟩),
   (Token.identifier "c", ⟨10, 11⟩)]

/-- Raw tokens of `a\n    ;c\nb`: a comment-only line indented by four
spaces. -/
def c3_input : List (Token × Span) :=
  [(Token.identifier "a", ⟨0, 1⟩), (Token.newline, ⟨1, 2⟩),
   (Token.spaces "    ", ⟨2, 6⟩), (Token.comment, ⟨6, 8⟩),
   (Token.newline, ⟨8, 9⟩), (Token.identifier "b", ⟨9, 10⟩)]

/-- Raw tokens of `(a\n    b)`. -/
def c6_input : List (Token × Span) :=
  [(Token.parenOpen, ⟨0, 1⟩), (Token.identifier "a", ⟨1, 2⟩),
   (Token.newline, ⟨2, 3⟩), (Token.spaces "    ", ⟨3, 7⟩),
   (Token.identifier "b", ⟨7, 8⟩), (Token.parenClose, ⟨8, 9⟩)]

/-- Raw tokens of `f(x)`: the identifier's span end equals the bracket's
span start. -/
def c7_adjacent_input : List (Token × Span) :=
  [(Token.identifier "f", ⟨0, 1⟩), (Token.parenOpen, ⟨1, 2⟩),
   (Token.identifier "x", ⟨2, 3⟩), (Token.parenClose, ⟨3, 4⟩)]

/-- Raw tokens of `f (x)`: one space of gap. -/
def c7_separate_input : List (Token × Span) :=
  [(Token.identifier "f", ⟨0, 1⟩), (Token.spaces " ", ⟨1, 2⟩),
   (Token.parenOpen, ⟨2, 3⟩), (Token.identifier "x", ⟨3, 4⟩),
   (Token.parenClose, ⟨4, 5⟩)]

/-- Raw tokens of `a\n  b\n  ;c\n`: a comment-only line at the current
(unchanged) indentation level. -/
def c10_input : List (Token × Span) :=
  [(Token.identifier "a", ⟨0, 1⟩), (Token.newline, ⟨1, 2⟩),
   (Token.spaces "  ", ⟨2, 4⟩), (Token.identifier "b", ⟨4, 5⟩),
   (Token.newline, ⟨5, 6⟩), (Token.spaces "  ", ⟨6, 8⟩),
   (Token.comment, ⟨8, 10⟩), (Token.newline, ⟨10, 11⟩)]

/-- Logical stream of a single-atom line. -/
def c8_single : List (Token × Span) := [(Token.identifier "a", ⟨0, 1⟩)]

/-- Logical stream of a two-atom line. -/
def c8_double : List (Token × Span) :=
  [(Token.identifier "a", ⟨0, 1⟩), (Token.identifier "b", ⟨2, 3⟩)]

/-- Logical stream of a one-atom line followed by an indented block line. -/
def c8_block : List (Token × Span) :=
  [(Token.identifier "a", ⟨0, 1⟩), (Token.newline, ⟨1, 2⟩),
   (Token.indent, ⟨2, 4⟩), (Token.identifier "b", ⟨4, 5⟩)]

/-- Logical stream of a two-atom line terminated by a newline with no
indented block after it (the ordinary mid-file line `a b\nc`). -/
def c8_line2 : List (Token × Span) :=
  [(Token.identifier "a", ⟨0, 1⟩), (Token.identifier "b", ⟨2, 3⟩),
   (Token.newline, ⟨3, 4⟩), (Token.identifier "c", ⟨4, 5⟩)]

/-- Success predicate for a parser outcome: the run either errs or
succeeds with a cursor between `lo` and the end of the stream — in
particular it neither panics nor runs out of fuel. -/
def pgood {α : Type} (r : POut α) (len lo : Nat) : Prop :=
  (∃ a cur', r = POut.ok a cur' ∧ lo ≤ cur' ∧ cur' ≤ len) ∨ ∃ e, r = POut.err e

/-- No `Error` token sits in the half-open index interval `[lo, hi)`. -/
def no_err_between (toks : List (Token × Span)) (lo hi : Nat) : Prop :=
  ∀ j s sp, lo ≤ j → j < hi → peekTok toks j ≠ some (Token.error s, sp)

/-! Section: Lemmas about `pop_stack` -/

/-- Closed form of `pop_stack`: it pops exactly the strictly-greater prefix
of the stack, succeeds iff the first remaining level (`0` for the empty
stack) equals `level`, and returns one count per popped level. -/
theorem pop_stack_spec (stack : List Nat) (level : Nat) :
    pop_stack stack level =
      if (stack.dropWhile (fun x => decide (level < x))).headD 0 = level then
        (Except.ok (stack.takeWhile (fun x => decide (level < x))).length,
          stack.dropWhile (fun x => decide (level < x)))
      else (Except.error (), stack.dropWhile (fun x => decide (level < x))) := by
  induction stack with
  | nil =>
    simp only [pop_stack, List.dropWhile_nil, List.takeWhile_nil, List.headD_nil,
      List.length_nil]
    split_ifs <;> first | rfl | omega
  | cons top rest ih =>
    by_cases h1 : top < level
    · have h2 : ¬ level < top := by omega
      have hd : (top :: rest).dropWhile (fun x => decide (level < x)) = top :: rest := by
        simp [List.dropWhile_cons, h2]
      rw [hd, List.headD_cons, if_neg (by omega)]
      simp [pop_stack, h1]
    · by_cases h2 : top = level
      · have h3 : ¬ level < top := by omega
        simp [pop_stack, h1, h2, h3, List.dropWhile_cons, List.takeWhile_cons,
          List.headD_cons]
      · have h3 : level < top := by omega
        have h4 : ¬ top < level := by omega
        simp only [pop_stack, if_neg h4, if_neg h2, ih, List.dropWhile_cons,
          List.takeWhile_cons, decide_eq_true_eq, if_pos h3]
        split_ifs <;> simp

/-- A successful `pop_stack` pops exactly as many levels as it counts. -/
theorem pop_stack_ok_length {stack : List Nat} {level n : Nat} {st : List Nat}
    (h : pop_stack stack level = (Except.ok n, st)) : st.length + n = stack.length := by
  rw [pop_stack_spec] at h
  split_ifs at h with hc
  · simp only [Prod.mk.injEq, Except.ok.injEq] at h
    obtain ⟨h1, h2⟩ := h
    subst h1
    subst h2
    have h3 := congrArg List.length
      (List.takeWhile_append_dropWhile (p := fun x => decide (level < x)) (l := stack))
    simp only [List.length_append] at h3
    omega
  · exact absurd h (by simp)

/-- Also on failure `pop_stack` only ever shrinks the stack. -/
theorem pop_stack_length_le (stack : List Nat) (level : Nat) :
    (pop_stack stack level).2.length ≤ stack.length := by
  rw [pop_stack_spec]
  split_ifs <;> simpa using (List.dropWhile_sublist _).length_le

/-! Section: Counting indents and dedents (claim C2) -/

@[simp]
theorem countIndents_push (l : List (Token × Span)) (t : Token) (sp : Span) :
    countIndents (l ++ [(t, sp)]) = countIndents l + (if t = Token.indent then 1 else 0) := by
  simp only [countIndents, List.filter_append, List.length_append]
  split_ifs with h <;> simp [h]

@[simp]
theorem countDedents_push (l : List (Token × Span)) (t : Token) (sp : Span) :
    countDedents (l ++ [(t, sp)]) = countDedents l + (if t = Token.dedent then 1 else 0) := by
  simp only [countDedents, List.filter_append, List.length_append]
  split_ifs with h <;> simp [h]

@[simp]
theorem countIndents_push_replicate (l : List (Token × Span)) (n : Nat) (sp : Span) :
    countIndents (l ++ List.replicate n (Token.dedent, sp)) = countIndents l := by
  simp [countIndents, List.filter_append, List.filter_replicate]

@[simp]
theorem countDedents_push_replicate (l : List (Token × Span)) (n : Nat) (sp : Span) :
    countDedents (l ++ List.replicate n (Token.dedent, sp)) = countDedents l + n := by
  simp [countDedents, List.filter_append, List.filter_replicate]

/-- The counting invariant of the normalizer: pending stack levels are
covered by already-emitted `Indent`s.  Preserved by `handle_spaces`. -/
theorem handle_spaces_count (ind : List Nat) (tks : List (Token × Span)) (s : String) (sp : Span)
    (h : countDedents tks + ind.length ≤ countIndents tks) :
    countDedents (handle_spaces ind tks s sp).2 + (handle_spaces ind tks s sp).1.length ≤
      countIndents (handle_spaces ind tks s sp).2 := by
  unfold handle_spaces
  split_ifs with h1
  · simp
    omega
  · rcases hps : pop_stack ind s.length with ⟨r, st⟩
    cases r with
    | ok n =>
      have hlen := pop_stack_ok_length hps
      simp only [hps, countDedents_push_replicate, countIndents_push_replicate]
      omega
    | error e =>
      have hlen : st.length ≤ ind.length := by
        have := pop_stack_length_le ind s.length
        rwa [hps] at this
      simp only [hps, countDedents_push, countIndents_push]
      simp
      omega

/-- The counting invariant is preserved by the start-of-line dedent check. -/
theorem sol_dedent_check_count (ind : List Nat) (tks : List (Token × Span)) (sp : Span)
    (h : countDedents tks + ind.length ≤ countIndents tks) :
    countDedents (sol_dedent_check ind tks sp).2 + (sol_dedent_check ind tks sp).1.length ≤
      countIndents (sol_dedent_check ind tks sp).2 := by
  unfold sol_dedent_check
  split_ifs with h1
  · rcases hps : pop_stack ind 0 with ⟨r, st⟩
    cases r with
    | ok n =>
      have hlen := pop_stack_ok_length hps
      simp only [hps, countDedents_push_replicate, countIndents_push_replicate]
      omega
    | error e =>
      have hlen : st.length ≤ ind.length := by
        have := pop_stack_length_le ind 0
        rwa [hps] at this
      simp only [hps, countDedents_push, countIndents_push]
      simp
      omega
  · exact h

/-- One normalizer step on any token that is not a raw `Indent`/`Dedent`
preserves the counting invariant. -/
theorem hw_count_step (ind : List Nat) (tks : List (Token × Span)) (st : HWState)
    (t : Token) (sp : Span) (hi : t ≠ Token.indent) (hd : t ≠ Token.dedent)
    (h : countDedents tks + ind.length ≤ countIndents tks) :
    countDedents (hwStep ⟨ind, tks, st⟩ (t, sp)).toks +
        (hwStep ⟨ind, tks, st⟩ (t, sp)).indents.length ≤
      countIndents (hwStep ⟨ind, tks, st⟩ (t, sp)).toks := by
  have hsol := sol_dedent_check_count ind tks sp h
  cases st with
  | start =>
    cases t <;> simp [hwStep] <;>
      first
        | omega
        | exact handle_spaces_count ind tks _ sp h
        | simp_all
  | startOfLine =>
    cases t <;> simp [hwStep, is_line_ws] <;>
      first
        | omega
        | exact handle_spaces_count ind tks _ sp h
        | (exact hsol)
        | simp_all
  | inLine =>
    cases t <;> simp [hwStep] <;> first | omega | simp_all
  | ignore n =>
    cases t <;> simp [hwStep] <;> first | omega | simp_all

/-- Folding the normalizer over a stream without raw synthetic tokens
preserves the counting invariant. -/
theorem hw_count_fold (l : List (Token × Span)) (acc : HWAcc)
    (hl : no_raw_synthetic l = true)
    (hacc : countDedents acc.toks + acc.indents.length ≤ countIndents acc.toks) :
    countDedents (l.foldl hwStep acc).toks + (l.foldl hwStep acc).indents.length ≤
      countIndents (l.foldl hwStep acc).toks := by
  induction l generalizing acc with
  | nil => simpa using hacc
  | cons x rest ih =>
    obtain ⟨t, sp⟩ := x
    simp only [no_raw_synthetic, List.all_cons, Bool.and_eq_true, Bool.not_eq_true',
      Bool.or_eq_false_iff, decide_eq_false_iff_not] at hl
    obtain ⟨⟨h1, h2⟩, hrest⟩ := hl
    simp only [List.foldl_cons]
    obtain ⟨ind, tks, st⟩ := acc
    exact ih (hwStep ⟨ind, tks, st⟩ (t, sp)) hrest (hw_count_step ind tks st t sp h1 h2 hacc)

/-! Section: Claim C2 -/

/-- C2 counterexample: on the error-free raw stream `a\n  b\n    c` the
normalizer emits two `Indent` tokens and no `Dedent` token, so the claimed
"equal counts up to at most one unmatched trailing `Indent`" fails: two
indentation levels are still open at end of input, leaving two unmatched
`Indent`s. -/
theorem c2_counterexample :
    countIndents (handle_whitespace c2_input) = 2 ∧
      countDedents (handle_whitespace c2_input) = 0 ∧
      ¬(countIndents (handle_whitespace c2_input) = countDedents (handle_whitespace c2_input) ∨
        countIndents (handle_whitespace c2_input) =
          countDedents (handle_whitespace c2_input) + 1) := by
  refine ⟨by decide, by decide, ?_⟩
  decide

/-- C2 (amended): for any input stream without raw `Indent`/`Dedent`
tokens (the scanner never produces them), the number of `Dedent` tokens
`handle_whitespace` emits never exceeds the number of `Indent` tokens; the
surplus of `Indent`s — one per indentation level still open (or discarded
by an invalid-indentation error) at end of input — can exceed one. -/
theorem c2_dedents_le_indents (input : List (Token × Span))
    (h : no_raw_synthetic input = true) :
    countDedents (handle_whitespace input) ≤ countIndents (handle_whitespace input) := by
  have hmain := hw_count_fold input ⟨[], [], HWState.start⟩ h
    (by simp [countIndents, countDedents])
  unfold handle_whitespace
  omega

/-- C2 witness: the amended bound, instantiated on the counterexample
stream itself. -/
theorem c2_witness :
    no_raw_synthetic c2_input = true ∧
      countDedents (handle_whitespace c2_input) ≤ countIndents (handle_whitespace c2_input) :=
  ⟨by decide, c2_dedents_le_indents c2_input (by decide)⟩

/-! Section: Claim C3 -/

/-- C3 counterexample: for the raw stream of `a\n    ;c\nb`, whose second
line holds only a comment indented by four spaces, the normalizer emits an
`Indent` (from the leading spaces), the line's `Newline`, and a matching
`Dedent` on the next line — the indented comment-only line is not treated
as blank, refuting the "with or without leading spaces" part of the
claim. -/
theorem c3_counterexample :
    handle_whitespace c3_input =
      [(Token.identifier "a", ⟨0, 1⟩), (Token.newline, ⟨1, 2⟩), (Token.indent, ⟨2, 6⟩),
       (Token.newline, ⟨8, 9⟩), (Token.dedent, ⟨9, 10⟩), (Token.identifier "b", ⟨9, 10⟩)] ∧
      countIndents (handle_whitespace c3_input) = 1 := by
  constructor
  · rfl
  · decide

/-- C3 (amended): a comment-only line with NO leading spaces is fully
transparent: a `Comment` token leaves the normalizer context unchanged in
every state, and a `Newline` at start of line (or start of input) is
likewise dropped without touching stack or output.  (A comment line WITH
leading spaces is not transparent: its spaces are measured as indentation
before the comment is seen, and its terminating newline is emitted from
the in-line state, as the counterexample shows.) -/
theorem c3_comment_blank_transparent :
    (∀ (acc : HWAcc) (sp : Span), hwStep acc (Token.comment, sp) = acc) ∧
    (∀ (ind : List Nat) (tks : List (Token × Span)) (sp : Span),
      hwStep ⟨ind, tks, HWState.startOfLine⟩ (Token.newline, sp) =
        ⟨ind, tks, HWState.startOfLine⟩) ∧
    (∀ (ind : List Nat) (tks : List (Token × Span)) (sp : Span),
      hwStep ⟨ind, tks, HWState.start⟩ (Token.newline, sp) = ⟨ind, tks, HWState.start⟩) := by
  refine ⟨?_, fun _ _ _ => rfl, fun _ _ _ => rfl⟩
  intro acc sp
  obtain ⟨ind, tks, st⟩ := acc
  cases st <;> rfl

/-! Section: Claim C4 -/

/-- C4: when a line-start width measurement is strictly below the stack
top, the normalizer pops exactly the levels greater than the width, emits
one `Dedent` per popped level when some remaining level (or the implicit
bottom `0`) equals the width exactly, and emits the invalid-indentation
`Error` token instead when it does not; in particular, with the stack
holding `[2, 4]` (top first: `[4, 2]`) a new line of width 3 yields the
invalid-indentation error.  Stated for both line-start states. -/
theorem c4_dedent_pop_or_error :
    (∀ (indents : List Nat) (tks : List (Token × Span)) (s : String) (sp : Span),
      s.length < indents.headD 0 →
      hwStep ⟨indents, tks, HWState.startOfLine⟩ (Token.spaces s, sp) =
        ⟨indents.dropWhile (fun x => decide (s.length < x)),
         tks ++
           (if (indents.dropWhile (fun x => decide (s.length < x))).headD 0 = s.length then
              List.replicate (indents.takeWhile (fun x => decide (s.length < x))).length
                (Token.dedent, sp)
            else [(Token.error "Invalid indentation", sp)]),
         HWState.inLine⟩) ∧
    (∀ (indents : List Nat) (tks : List (Token × Span)) (s : String) (sp : Span),
      s.length < indents.headD 0 →
      hwStep ⟨indents, tks, HWState.start⟩ (Token.spaces s, sp) =
        ⟨indents.dropWhile (fun x => decide (s.length < x)),
         tks ++
           (if (indents.dropWhile (fun x => decide (s.length < x))).headD 0 = s.length then
              List.replicate (indents.takeWhile (fun x => decide (s.length < x))).length
                (Token.dedent, sp)
            else [(Token.error "Invalid indentation", sp)]),
         HWState.inLine⟩) ∧
    hwStep ⟨[4, 2], [], HWState.startOfLine⟩ (Token.spaces "   ", ⟨18, 21⟩) =
      ⟨[2], [(Token.error "Invalid indentation", ⟨18, 21⟩)], HWState.inLine⟩ := by
  refine ⟨?_, ?_, rfl⟩ <;>
    · intro indents tks s sp hlt
      have hgt : ¬ s.length > indents.headD 0 := by omega
      simp only [hwStep, is_line_ws, ite_true, if_true]
      unfold handle_spaces
      rw [if_neg hgt, pop_stack_spec]
      split_ifs with hc <;> rfl

/-- C4 witness: with the stack `[4, 2]` (top first) a line of width 2 pops
one level and emits exactly one `Dedent`. -/
theorem c4_witness :
    hwStep ⟨[4, 2], [], HWState.startOfLine⟩ (Token.spaces "  ", ⟨10, 12⟩) =
      ⟨[2], [(Token.dedent, ⟨10, 12⟩)], HWState.inLine⟩ := by
  have h := c4_dedent_pop_or_error.1 [4, 2] [] "  " ⟨10, 12⟩ (by decide)
  rw [h]
  rfl

/-! Section: Claim C10: first-token invariant machinery -/

theorem string_length_pos (s : String) (h : s ≠ "") : 0 < s.length := by
  cases s with
  | mk data =>
    cases data with
    | nil => exact absurd rfl h
    | cons c cs => simp [String.length]

theorem swn_cons_ne (t : Token) (sp : Span) (l : List (Token × Span))
    (h : t ≠ Token.newline) : starts_with_newline ((t, sp) :: l) = false := by
  cases t <;> simp_all [starts_with_newline]

theorem swn_append_left (tks Δ : List (Token × Span)) (h : tks ≠ []) :
    starts_with_newline (tks ++ Δ) = starts_with_newline tks := by
  cases tks with
  | nil => exact absurd rfl h
  | cons x rest =>
    obtain ⟨t, sp⟩ := x
    cases t <;> rfl

theorem swn_append_single (tks : List (Token × Span)) (t : Token) (sp : Span)
    (h3 : starts_with_newline tks = false) (ht : t ≠ Token.newline) :
    starts_with_newline (tks ++ [(t, sp)]) = false := by
  cases tks with
  | nil => simpa using swn_cons_ne t sp [] ht
  | cons x rest => rw [swn_append_left _ _ (by simp)]; exact h3

/-- Both space handlers only append to the output buffer. -/
theorem handle_spaces_prefix (ind : List Nat) (tks : List (Token × Span)) (s : String)
    (sp : Span) : ∃ d, (handle_spaces ind tks s sp).2 = tks ++ d := by
  unfold handle_spaces
  split_ifs with h1
  · exact ⟨_, rfl⟩
  · rcases hps : pop_stack ind s.length with ⟨r, st⟩
    cases r <;> simp only [hps] <;> exact ⟨_, rfl⟩

theorem sol_dedent_check_prefix (ind : List Nat) (tks : List (Token × Span)) (sp : Span) :
    ∃ d, (sol_dedent_check ind tks sp).2 = tks ++ d := by
  unfold sol_dedent_check
  split_ifs with h1
  · rcases hps : pop_stack ind 0 with ⟨r, st⟩
    cases r <;> simp only [hps] <;> exact ⟨_, rfl⟩
  · exact ⟨[], by simp⟩

/-- On the empty stack, a nonempty run of spaces always pushes one level
and emits exactly one `Indent`. -/
theorem handle_spaces_empty_stack (tks : List (Token × Span)) (s : String) (sp : Span)
    (h : s ≠ "") :
    handle_spaces [] tks s sp = ([s.length], tks ++ [(Token.indent, sp)]) := by
  unfold handle_spaces
  rw [if_pos]
  simpa using string_length_pos s h

/-- Invariant preserved by each normalizer step: outside the initial state
the output buffer is nonempty, in the initial state the stack is empty,
and the output never starts with a `Newline`.  Requires every `Spaces`
payload to be nonempty (as the scanner guarantees). -/
theorem hw_swn_step (ind : List Nat) (tks : List (Token × Span)) (st : HWState)
    (t : Token) (sp : Span)
    (hsp : ∀ s, t = Token.spaces s → s ≠ "")
    (h1 : st = HWState.start → ind = [])
    (h2 : st ≠ HWState.start → tks ≠ [])
    (h3 : starts_with_newline tks = false) :
    ((hwStep ⟨ind, tks, st⟩ (t, sp)).state = HWState.start →
        (hwStep ⟨ind, tks, st⟩ (t, sp)).indents = []) ∧
    ((hwStep ⟨ind, tks, st⟩ (t, sp)).state ≠ HWState.start →
        (hwStep ⟨ind, tks, st⟩ (t, sp)).toks ≠ []) ∧
    starts_with_newline (hwStep ⟨ind, tks, st⟩ (t, sp)).toks = false := by
  cases st with
  | start =>
    have hind : ind = [] := h1 rfl
    subst hind
    cases t with
    | spaces s =>
      have hs := hsp s rfl
      simp only [hwStep, handle_spaces_empty_stack tks s sp hs]
      refine ⟨by simp, fun _ => by simp, swn_append_single tks _ sp h3 (by simp)⟩
    | newline => exact ⟨fun _ => rfl, fun h => absurd rfl h, h3⟩
    | comment => exact ⟨fun _ => rfl, fun h => absurd rfl h, h3⟩
    | _ =>
      refine ⟨fun h => by simp [hwStep] at h ⊢, fun _ => by simp [hwStep], ?_⟩ <;>
        simp only [hwStep] <;>
        exact swn_append_single tks _ sp h3 (by simp)
  | startOfLine =>
    have htks : tks ≠ [] := h2 (by simp)
    obtain ⟨d, hd⟩ := sol_dedent_check_prefix ind tks sp
    cases t with
    | spaces s =>
      obtain ⟨d2, hd2⟩ := handle_spaces_prefix ind tks s sp
      simp only [hwStep, is_line_ws, ite_true, if_true]
      refine ⟨by simp, fun _ => ?_, ?_⟩
      · rw [hd2]; simp [htks]
      · rw [hd2, swn_append_left _ _ htks]; exact h3
    | newline => exact ⟨by simp [hwStep], fun _ => htks, h3⟩
    | comment => exact ⟨by simp [hwStep], fun _ => htks, h3⟩
    | _ =>
      simp only [hwStep, is_line_ws, Bool.false_eq_true, if_false]
      refine ⟨by simp, fun _ => ?_, ?_⟩
      · rw [hd]; simp
      · rw [hd, List.append_assoc, swn_append_left _ _ htks]
        exact h3
  | inLine =>
    have htks : tks ≠ [] := h2 (by simp)
    cases t <;>
      refine ⟨by simp [hwStep], fun _ => ?_, ?_⟩ <;>
      simp only [hwStep] <;>
      first
        | exact htks
        | simp
        | (rw [swn_append_left _ _ htks]; exact h3)
        | exact h3
  | ignore n =>
    have htks : tks ≠ [] := h2 (by simp)
    cases t <;>
      refine ⟨?_, fun _ => ?_, ?_⟩ <;>
      simp only [hwStep] <;>
      first
        | (split_ifs <;> simp)
        | exact htks
        | simp
        | (rw [swn_append_left _ _ htks]; exact h3)
        | exact h3

/-- Folding the invariant over a stream whose `Spaces` payloads are all
nonempty. -/
theorem hw_swn_fold (l : List (Token × Span)) (acc : HWAcc)
    (hl : spaces_nonempty l = true)
    (h1 : acc.state = HWState.start → acc.indents = [])
    (h2 : acc.state ≠ HWState.start → acc.toks ≠ [])
    (h3 : starts_with_newline acc.toks = false) :
    starts_with_newline (l.foldl hwStep acc).toks = false := by
  induction l generalizing acc with
  | nil => simpa using h3
  | cons x rest ih =>
    obtain ⟨t, sp⟩ := x
    simp only [spaces_nonempty, List.all_cons, Bool.and_eq_true] at hl
    obtain ⟨hx, hrest⟩ := hl
    have hsp : ∀ s, t = Token.spaces s → s ≠ "" := by
      intro s hs
      subst hs
      simpa using hx
    obtain ⟨ind, tks, st⟩ := acc
    obtain ⟨g1, g2, g3⟩ := hw_swn_step ind tks st t sp hsp h1 h2 h3
    simpa only [List.foldl_cons] using ih (hwStep ⟨ind, tks, st⟩ (t, sp)) hrest g1 g2 g3

/-! Section: Claim C10 -/

/-- C10 counterexample: the raw stream of `a\n  b\n  ;c\n` (all `Spaces`
payloads nonempty, so producible by the scanner) yields an output with two
adjacent `Newline` tokens: the comment-only line at the unchanged
indentation width 2 re-enters the in-line state without emitting anything,
so its terminating newline is emitted right after the previous line's. -/
theorem c10_counterexample :
    handle_whitespace c10_input =
      [(Token.identifier "a", ⟨0, 1⟩), (Token.newline, ⟨1, 2⟩), (Token.indent, ⟨2, 4⟩),
       (Token.identifier "b", ⟨4, 5⟩), (Token.newline, ⟨5, 6⟩), (Token.newline, ⟨10, 11⟩)] ∧
      has_consecutive_newlines (handle_whitespace c10_input) = true ∧
      spaces_nonempty c10_input = true := by
  refine ⟨rfl, by decide, by decide⟩

/-- C10 (amended): the consecutive-newline half of the claim is false (see
the counterexample), but the first-token half holds: for any input whose
`Spaces` payloads are nonempty (as the scanner guarantees), the output of
`handle_whitespace` never begins with a `Newline` token. -/
theorem c10_first_token_not_newline (input : List (Token × Span))
    (h : spaces_nonempty input = true) :
    starts_with_newline (handle_whitespace input) = false := by
  unfold handle_whitespace
  exact hw_swn_fold input ⟨[], [], HWState.start⟩ h (fun _ => rfl)
    (fun hne => absurd rfl hne) rfl

/-- C10 witness: the amended first-token property instantiated on the
counterexample stream. -/
theorem c10_witness :
    spaces_nonempty c10_input = true ∧
      starts_with_newline (handle_whitespace c10_input) = false :=
  ⟨by decide, c10_first_token_not_newline c10_input (by decide)⟩

/-! Section: Claim C6 -/

/-- C6: in the suppressed (`Ignore`) state — active exactly while an
explicit bracket group is open — a normalizer step never adds an `Indent`
or `Dedent` to the output (for tokens other than raw `Indent`/`Dedent`
passthroughs, which the scanner never produces); and the bracketed
two-line input `(a\n    b)` parses to a single two-child parenthesis
group with no indentation error. -/
theorem c6_suppression :
    (∀ (ind : List Nat) (tks : List (Token × Span)) (n : Nat) (t : Token) (sp : Span),
      t ≠ Token.indent → t ≠ Token.dedent →
      countIndents (hwStep ⟨ind, tks, HWState.ignore n⟩ (t, sp)).toks = countIndents tks ∧
      countDedents (hwStep ⟨ind, tks, HWState.ignore n⟩ (t, sp)).toks = countDedents tks) ∧
    parse_source c6_input =
      POut.ok [Atom.group (SGroup.mk GroupType.parenthesis ⟨0, 1⟩
        [Atom.identifier "a" ⟨1, 2⟩, Atom.identifier "b" ⟨7, 8⟩] ⟨8, 9⟩)] 4 := by
  refine ⟨?_, rfl⟩
  intro ind tks n t sp hi hd
  cases t <;> simp_all [hwStep]

/-- C6 witness: a concrete suppressed step (identifier inside an open
parenthesis) adds no `Indent`/`Dedent`. -/
theorem c6_witness :
    countIndents (hwStep ⟨[], [(Token.parenOpen, ⟨0, 1⟩)], HWState.ignore 1⟩
        (Token.identifier "b", ⟨1, 2⟩)).toks =
      countIndents [(Token.parenOpen, ⟨0, 1⟩)] ∧
    countDedents (hwStep ⟨[], [(Token.parenOpen, ⟨0, 1⟩)], HWState.ignore 1⟩
        (Token.identifier "b", ⟨1, 2⟩)).toks =
      countDedents [(Token.parenOpen, ⟨0, 1⟩)] :=
  c6_suppression.1 [] [(Token.parenOpen, ⟨0, 1⟩)] 1 (Token.identifier "b") ⟨1, 2⟩
    (by decide) (by decide)

/-! Section: Claim C1 -/

/-- C1 counterexample: on the quoted three-line input the parser returns
ONE flat `Indentation` group with FIVE children — `define`, `test`,
`(a b)`, `(print "hello")`, `(another-thing 1 2)` — because
`parse_maybe_indent_group` pushes the indented-block results into the same
child vector as the head line's atoms (src/parser.rs:122-130).  The claim
requires four children with the two calls wrapped in a nested
`Indentation` group; the child count 5 refutes that shape. -/
theorem c1_counterexample :
    parse_source c1_input = POut.ok [c1_flat_atom] 18 ∧
      atom_child_count c1_flat_atom = 5 := ⟨rfl, rfl⟩

/-- C1 (amended): the input parses to exactly one top-level `Indentation`
group whose children are `Identifier "define"`, `Identifier "test"`, the
parenthesis group `[a, b]`, followed DIRECTLY by the two parenthesized
calls as fourth and fifth children (no nested indentation group). -/
theorem c1_flat_parse : parse_source c1_input = POut.ok [c1_flat_atom] 18 := rfl

/-! Section: Claim C7 -/

/-- C7: `f(x)` (zero-byte gap) parses as a neoteric application while
`f (x)` (one-space gap) parses as the two sibling atoms `f` and `(x)` (on
one line, hence collected in the line's indentation group); and in
general, whenever the parser sees an identifier followed by an opening
bracket, the choice between the sibling and the neoteric reading depends
only on whether the bracket's span start equals the identifier's span
end. -/
theorem c7_neoteric_adjacency :
    (parse_source c7_adjacent_input =
      POut.ok [Atom.neoteric (Atom.identifier "f" ⟨0, 1⟩)
        (SGroup.mk GroupType.parenthesis ⟨1, 2⟩ [Atom.identifier "x" ⟨2, 3⟩] ⟨3, 4⟩)] 4) ∧
    (parse_source c7_separate_input =
      POut.ok [Atom.group (SGroup.mk GroupType.indentation ⟨0, 1⟩
        [Atom.identifier "f" ⟨0, 1⟩,
         Atom.group (SGroup.mk GroupType.parenthesis ⟨2, 3⟩
           [Atom.identifier "x" ⟨3, 4⟩] ⟨4, 5⟩)] ⟨4, 5⟩)] 4) ∧
    (∀ (toks : List (Token × Span)) (cur : Nat) (s : String) (sp : Span)
        (t2 : Token) (sp2 : Span) (fuel : Nat),
      peekTok toks cur = some (Token.identifier s, sp) →
      peekTok toks (cur + 1) = some (t2, sp2) →
      is_open_tok t2 = true →
      sp2.start ≠ sp.stop →
      parse_atom toks cur (fuel + 1) = POut.ok (Atom.identifier s sp) (cur + 1)) ∧
    (∀ (toks : List (Token × Span)) (cur : Nat) (s : String) (sp : Span)
        (t2 : Token) (sp2 : Span) (fuel : Nat),
      peekTok toks cur = some (Token.identifier s, sp) →
      peekTok toks (cur + 1) = some (t2, sp2) →
      is_open_tok t2 = true →
      sp2.start = sp.stop →
      parse_atom toks cur (fuel + 1) =
        pbind (parse_explicit_group toks (cur + 1) fuel) (fun g cur' =>
          POut.ok (Atom.neoteric (Atom.identifier s sp) g) cur')) := by
  refine ⟨rfl, rfl, ?_, ?_⟩
  · intro toks cur s sp t2 sp2 fuel h1 h2 ht hne
    simp only [parse_atom, h1, h2, ht, if_true, if_neg hne]
  · intro toks cur s sp t2 sp2 fuel h1 h2 ht heq
    simp only [parse_atom, h1, h2, ht, if_true, if_pos heq]

/-- C7 witness: the span-gap rule applied at the concrete `f (x)` stream:
the identifier is returned alone and the bracket is left for a sibling
atom. -/
theorem c7_witness :
    parse_atom (handle_whitespace c7_separate_input) 0 5 =
      POut.ok (Atom.identifier "f" ⟨0, 1⟩) 1 :=
  c7_neoteric_adjacency.2.2.1 (handle_whitespace c7_separate_input) 0 "f" ⟨0, 1⟩
    Token.parenOpen ⟨2, 3⟩ 4 rfl rfl rfl (by decide)

/-! Section: Parser totality: supporting lemmas -/

@[simp]
theorem pbind_ok {α β : Type} (a : α) (c : Nat) (f : α → Nat → POut β) :
    pbind (POut.ok a c) f = f a c := rfl

@[simp]
theorem pbind_err {α β : Type} (e : ParseError) (f : α → Nat → POut β) :
    pbind (POut.err e) f = POut.err e := rfl

@[simp]
theorem pbind_panicked {α β : Type} (f : α → Nat → POut β) :
    pbind (POut.panicked : POut α) f = POut.panicked := rfl

@[simp]
theorem pbind_nofuel {α β : Type} (f : α → Nat → POut β) :
    pbind (POut.nofuel : POut α) f = POut.nofuel := rfl

theorem peek_some_lt {toks : List (Token × Span)} {cur : Nat} {x : Token × Span}
    (h : peekTok toks cur = some x) : cur < toks.length := by
  unfold peekTok at h
  exact (List.getElem?_eq_some.mp h).1

theorem peek_none_ge {toks : List (Token × Span)} {cur : Nat}
    (h : peekTok toks cur = none) : toks.length ≤ cur := by
  unfold peekTok at h
  simpa using h

theorem atom_start_elim {toks : List (Token × Span)} {cur : Nat}
    (h : atom_start toks cur = true) :
    ∃ t sp, peekTok toks cur = some (t, sp) ∧ is_atom_start_tok t = true := by
  unfold atom_start at h
  rcases hp : peekTok toks cur with _ | ⟨t, sp⟩
  · rw [hp] at h; simp at h
  · rw [hp] at h; exact ⟨t, sp, rfl, h⟩

theorem pgood_mono {α : Type} {r : POut α} {len lo lo' : Nat}
    (h : pgood r len lo) (hle : lo' ≤ lo) : pgood r len lo' := by
  rcases h with ⟨a, c, heq, h1, h2⟩ | he
  · exact Or.inl ⟨a, c, heq, le_trans hle h1, h2⟩
  · exact Or.inr he

theorem indent_group_finish_good (toks : List (Token × Span)) (cur : Nat) (sp : Span)
    (cs : List Atom) (h1 : 1 ≤ cur) (h2 : cur ≤ toks.length) :
    pgood (indent_group_finish toks cur sp cs) toks.length cur := by
  have hlast : last_tok_span toks cur = some (toks.get ⟨cur - 1, by omega⟩).2 := by
    unfold last_tok_span
    rw [if_neg (by omega)]
    rw [List.getElem?_eq_getElem (by omega)]
    simp [List.get_eq_getElem]
  rcases cs with _ | ⟨a, _ | ⟨b, rest⟩⟩
  · simp only [indent_group_finish, hlast]
    exact Or.inl ⟨_, cur, rfl, le_refl _, h2⟩
  · exact Or.inl ⟨a, cur, rfl, le_refl _, h2⟩
  · simp only [indent_group_finish, hlast]
    exact Or.inl ⟨_, cur, rfl, le_refl _, h2⟩

theorem close_group_good (toks : List (Token × Span)) (cur : Nat) (expected : Token)
    (gt : GroupType) (sp : Span) (children : List Atom) :
    pgood (close_group toks cur expected gt sp children) toks.length (cur + 1) := by
  unfold close_group expect
  rcases hp2 : peekTok toks cur with _ | ⟨tok2, sp2⟩
  · simp only [hp2]
    exact Or.inr ⟨_, rfl⟩
  · simp only [hp2]
    split_ifs with he
    · exact Or.inl ⟨_, cur + 1, rfl, le_refl _, by have := peek_some_lt hp2; omega⟩
    · exact Or.inr ⟨_, rfl⟩

/-- Totality of the parser: with fuel at least four times the remaining
tokens plus a small constant, each parsing function (under the
precondition its Rust call sites guarantee) returns `ok` with a cursor
that advanced at least to `lo` and at most to the end, or a `ParseError` —
never a panic and never fuel exhaustion. -/
theorem parser_master (fuel : Nat) :
    (∀ toks cur, atom_start toks cur = true → 4 * (toks.length - cur) + 4 ≤ fuel →
      pgood (parse_atom toks cur fuel) toks.length (cur + 1)) ∧
    (∀ toks cur t sp, peekTok toks cur = some (t, sp) → is_open_tok t = true →
      4 * (toks.length - cur) + 3 ≤ fuel →
      pgood (parse_explicit_group toks cur fuel) toks.length (cur + 1)) ∧
    (∀ toks cur, cur ≤ toks.length → 4 * (toks.length - cur) + 5 ≤ fuel →
      pgood (parse_atoms toks cur fuel) toks.length
        (if atom_start toks cur = true then cur + 1 else cur)) ∧
    (∀ toks cur, atom_start toks cur = true → 4 * (toks.length - cur) + 6 ≤ fuel →
      pgood (parse_maybe_indent_group toks cur fuel) toks.length (cur + 1)) ∧
    (∀ toks cur, cur ≤ toks.length → 4 * (toks.length - cur) + 7 ≤ fuel →
      pgood (parse_indent_groups toks cur fuel) toks.length cur) ∧
    (∀ toks cur, cur ≤ toks.length → 4 * (toks.length - cur) + 8 ≤ fuel →
      pgood (parse_mig_list toks cur fuel) toks.length cur) := by
  induction fuel with
  | zero => refine ⟨?_, ?_, ?_, ?_, ?_, ?_⟩ <;> (intros; exfalso; omega)
  | succ f ih =>
    obtain ⟨ihA, ihE, ihS, ihM, ihG, ihL⟩ := ih
    refine ⟨?_, ?_, ?_, ?_, ?_, ?_⟩
    · -- parse_atom
      intro toks cur hstart hfuel
      obtain ⟨t, sp, hpeek, htok⟩ := atom_start_elim hstart
      have hcur : cur < toks.length := peek_some_lt hpeek
      simp only [parse_atom, hpeek]
      cases t <;> try simp [is_atom_start_tok] at htok
      · -- identifier
        rcases hp2 : peekTok toks (cur + 1) with _ | ⟨t2, sp2⟩
        · simp only [hp2]
          exact Or.inl ⟨_, cur + 1, rfl, le_refl _, by omega⟩
        · simp only [hp2]
          by_cases ho : is_open_tok t2 = true
          · rw [if_pos ho]
            by_cases hadj : sp2.start = sp.stop
            · rw [if_pos hadj]
              have hE := ihE toks (cur + 1) t2 sp2 hp2 ho (by omega)
              rcases hE with ⟨g, c2, heq, hlo, hhi⟩ | ⟨e, heq⟩
              · rw [heq, pbind_ok]
                exact Or.inl ⟨_, c2, rfl, by omega, hhi⟩
              · rw [heq, pbind_err]
                exact Or.inr ⟨e, rfl⟩
            · rw [if_neg hadj]
              exact Or.inl ⟨_, cur + 1, rfl, le_refl _, by omega⟩
          · rw [if_neg ho]
            exact Or.inl ⟨_, cur + 1, rfl, le_refl _, by omega⟩
      · -- string
        exact Or.inl ⟨_, cur + 1, rfl, le_refl _, by omega⟩
      · -- parenOpen
        have hE := ihE toks cur Token.parenOpen sp hpeek rfl (by omega)
        rcases hE with ⟨g, c2, heq, hlo, hhi⟩ | ⟨e, heq⟩
        · rw [heq, pbind_ok]
          exact Or.inl ⟨_, c2, rfl, hlo, hhi⟩
        · rw [heq, pbind_err]
          exact Or.inr ⟨e, rfl⟩
      · -- curlyOpen
        have hE := ihE toks cur Token.curlyOpen sp hpeek rfl (by omega)
        rcases hE with ⟨g, c2, heq, hlo, hhi⟩ | ⟨e, heq⟩
        · rw [heq, pbind_ok]
          exact Or.inl ⟨_, c2, rfl, hlo, hhi⟩
        · rw [heq, pbind_err]
          exact Or.inr ⟨e, rfl⟩
      · -- bracketOpen
        have hE := ihE toks cur Token.bracketOpen sp hpeek rfl (by omega)
        rcases hE with ⟨g, c2, heq, hlo, hhi⟩ | ⟨e, heq⟩
        · rw [heq, pbind_ok]
          exact Or.inl ⟨_, c2, rfl, hlo, hhi⟩
        · rw [heq, pbind_err]
          exact Or.inr ⟨e, rfl⟩
    · -- parse_explicit_group
      intro toks cur t sp hpeek hopen hfuel
      have hcur : cur < toks.length := peek_some_lt hpeek
      have hS := ihS toks (cur + 1) (by omega) (by omega)
      simp only [parse_explicit_group, hpeek]
      rcases hS with ⟨children, cur1, heq, hlo1, hhi1⟩ | ⟨e, heq⟩
      · rw [heq, pbind_ok]
        have hlo1' : cur + 1 ≤ cur1 := by split_ifs at hlo1 <;> omega
        cases t <;> try simp [is_open_tok] at hopen
        · exact pgood_mono
            (close_group_good toks cur1 Token.parenClose GroupType.parenthesis sp children)
            (by omega)
        · exact pgood_mono
            (close_group_good toks cur1 Token.curlyClose GroupType.curly sp children)
            (by omega)
        · exact pgood_mono
            (close_group_good toks cur1 Token.bracketClose GroupType.bracket sp children)
            (by omega)
      · rw [heq, pbind_err]
        exact Or.inr ⟨e, rfl⟩
    · -- parse_atoms
      intro toks cur hcur hfuel
      by_cases hstart : atom_start toks cur = true
      · rw [if_pos hstart]
        simp only [parse_atoms, hstart, if_true]
        have hA := ihA toks cur hstart (by omega)
        rcases hA with ⟨a, c1, heqA, hloA, hhiA⟩ | ⟨e, heqA⟩
        · rw [heqA, pbind_ok]
          have hS2 := ihS toks c1 (by omega) (by omega)
          rcases hS2 with ⟨rest, c2, heq2, hlo2, hhi2⟩ | ⟨e, heq2⟩
          · rw [heq2, pbind_ok]
            have hc12 : c1 ≤ c2 := by split_ifs at hlo2 <;> omega
            exact Or.inl ⟨a :: rest, c2, rfl, by omega, hhi2⟩
          · rw [heq2, pbind_err]
            exact Or.inr ⟨e, rfl⟩
        · rw [heqA, pbind_err]
          exact Or.inr ⟨e, rfl⟩
      · rw [if_neg hstart]
        have hsf : atom_start toks cur = false := by simpa using hstart
        simp only [parse_atoms, hsf, Bool.false_eq_true, if_false]
        exact Or.inl ⟨[], cur, rfl, le_refl _, hcur⟩
    · -- parse_maybe_indent_group
      intro toks cur hstart hfuel
      obtain ⟨t0, sp0, hpeek, _⟩ := atom_start_elim hstart
      have hcur : cur < toks.length := peek_some_lt hpeek
      simp only [parse_maybe_indent_group, hpeek]
      have hS := ihS toks cur (by omega) (by omega)
      rcases hS with ⟨children, cur1, heqS, hlo1, hhi1⟩ | ⟨e, heqS⟩
      · rw [heqS, pbind_ok]
        rw [if_pos hstart] at hlo1
        rcases hp1 : peekTok toks cur1 with _ | ⟨t1, sp1⟩
        · simp only [hp1]
          exact pgood_mono (indent_group_finish_good toks cur1 sp0 children (by omega) hhi1)
            hlo1
        · have hcur1 : cur1 < toks.length := peek_some_lt hp1
          cases t1 <;> simp only [hp1] <;>
            first
            | exact pgood_mono
                (indent_group_finish_good toks cur1 sp0 children (by omega) hhi1) hlo1
            | · -- newline
                rcases hp2 : peekTok toks (cur1 + 1) with _ | ⟨t2, sp2⟩
                · simp only [hp2]
                  exact pgood_mono (indent_group_finish_good toks (cur1 + 1) sp0 children
                    (by omega) (by omega)) (by omega)
                · have hcur2 : cur1 + 1 < toks.length := peek_some_lt hp2
                  cases t2 <;> simp only [hp2] <;>
                    first
                    | exact pgood_mono (indent_group_finish_good toks (cur1 + 1) sp0 children
                        (by omega) (by omega)) (by omega)
                    | · -- indent
                        have hG := ihG toks (cur1 + 2) (by omega) (by omega)
                        rcases hG with ⟨more, cur2, heqG, hlo2, hhi2⟩ | ⟨e, heqG⟩
                        · rw [heqG, pbind_ok]
                          rcases hp3 : peekTok toks cur2 with _ | ⟨t3, sp3⟩
                          · simp only [hp3]
                            exact pgood_mono (indent_group_finish_good toks cur2 sp0
                              (children ++ more) (by omega) hhi2) (by omega)
                          · have hcur3 : cur2 < toks.length := peek_some_lt hp3
                            cases t3 <;> simp only [hp3] <;>
                              first
                              | exact Or.inl ⟨_, cur2, rfl, by omega, hhi2⟩
                              | exact Or.inl ⟨_, cur2 + 1, rfl, by omega, by omega⟩
                        · rw [heqG, pbind_err]
                          exact Or.inr ⟨e, rfl⟩
      · rw [heqS, pbind_err]
        exact Or.inr ⟨e, rfl⟩
    · -- parse_indent_groups
      intro toks cur hcur hfuel
      by_cases hstart : atom_start toks cur = true
      · simp only [parse_indent_groups, hstart, if_true]
        have hM := ihM toks cur hstart (by omega)
        rcases hM with ⟨a, c1, heqM, hloM, hhiM⟩ | ⟨e, heqM⟩
        · rw [heqM, pbind_ok]
          rcases hp : peekTok toks c1 with _ | ⟨t1, sp1⟩
          · simp only [hp]
            have hG := ihG toks c1 (by omega) (by omega)
            rcases hG with ⟨rest, c2, heqG, hloG, hhiG⟩ | ⟨e, heqG⟩
            · rw [heqG, pbind_ok]
              exact Or.inl ⟨a :: rest, c2, rfl, by omega, hhiG⟩
            · rw [heqG, pbind_err]
              exact Or.inr ⟨e, rfl⟩
          · cases t1 <;> simp only [hp] <;>
              first
              | exact Or.inl ⟨[a], c1, rfl, by omega, hhiM⟩
              | · have hG := ihG toks c1 (by omega) (by omega)
                  rcases hG with ⟨rest, c2, heqG, hloG, hhiG⟩ | ⟨e, heqG⟩
                  · rw [heqG, pbind_ok]
                    exact Or.inl ⟨a :: rest, c2, rfl, by omega, hhiG⟩
                  · rw [heqG, pbind_err]
                    exact Or.inr ⟨e, rfl⟩
        · rw [heqM, pbind_err]
          exact Or.inr ⟨e, rfl⟩
      · have hsf : atom_start toks cur = false := by simpa using hstart
        simp only [parse_indent_groups, hsf, Bool.false_eq_true, if_false]
        exact Or.inl ⟨[], cur, rfl, le_refl _, hcur⟩
    · -- parse_mig_list
      intro toks cur hcur hfuel
      by_cases hstart : atom_start toks cur = true
      · simp only [parse_mig_list, hstart, if_true]
        have hM := ihM toks cur hstart (by omega)
        rcases hM with ⟨a, c1, heqM, hloM, hhiM⟩ | ⟨e, heqM⟩
        · rw [heqM, pbind_ok]
          have hL2 := ihL toks c1 (by omega) (by omega)
          rcases hL2 with ⟨rest, c2, heqL, hloL, hhiL⟩ | ⟨e, heqL⟩
          · rw [heqL, pbind_ok]
            exact Or.inl ⟨a :: rest, c2, rfl, by omega, hhiL⟩
          · rw [heqL, pbind_err]
            exact Or.inr ⟨e, rfl⟩
        · rw [heqM, pbind_err]
          exact Or.inr ⟨e, rfl⟩
      · have hsf : atom_start toks cur = false := by simpa using hstart
        simp only [parse_mig_list, hsf, Bool.false_eq_true, if_false]
        exact Or.inl ⟨[], cur, rfl, le_refl _, hcur⟩

/-- The end-of-input check at the tail of `parse_toplevel` always yields
`ok` or the trailing-token error. -/
theorem eof_check_good (toks : List (Token × Span)) (children : List Atom) (c : Nat) :
    (∃ a cur', (match peekTok toks c with
        | some (tok, span) => POut.err (ParseError.expectedEofFoundToken tok span)
        | none => POut.ok children c) = POut.ok a cur') ∨
    (∃ e, (match peekTok toks c with
        | some (tok, span) => POut.err (ParseError.expectedEofFoundToken tok span)
        | none => POut.ok children c) = POut.err e) := by
  rcases hp : peekTok toks c with _ | ⟨t, sp⟩ <;> simp only [hp]
  · exact Or.inl ⟨children, c, rfl⟩
  · exact Or.inr ⟨_, rfl⟩

/-- The body of `parse_toplevel` after the optional leading `Indent` is
total. -/
theorem toplevel_tail_good (toks : List (Token × Span)) (fuel : Nat) (b : Bool) (cur0 : Nat)
    (h0 : cur0 ≤ toks.length) (hf : 4 * (toks.length - cur0) + 8 ≤ fuel) :
    (∃ a cur', pbind (parse_mig_list toks cur0 fuel) (fun children cur1 =>
        match peekTok toks (match peekTok toks cur1 with
          | some (Token.dedent, _) => if b then cur1 + 1 else cur1
          | _ => cur1) with
        | some (tok, span) => POut.err (ParseError.expectedEofFoundToken tok span)
        | none => POut.ok children (match peekTok toks cur1 with
          | some (Token.dedent, _) => if b then cur1 + 1 else cur1
          | _ => cur1)) = POut.ok a cur') ∨
    (∃ e, pbind (parse_mig_list toks cur0 fuel) (fun children cur1 =>
        match peekTok toks (match peekTok toks cur1 with
          | some (Token.dedent, _) => if b then cur1 + 1 else cur1
          | _ => cur1) with
        | some (tok, span) => POut.err (ParseError.expectedEofFoundToken tok span)
        | none => POut.ok children (match peekTok toks cur1 with
          | some (Token.dedent, _) => if b then cur1 + 1 else cur1
          | _ => cur1)) = POut.err e) := by
  have hL := (parser_master fuel).2.2.2.2.2 toks cur0 h0 hf
  rcases hL with ⟨children, cur1, heq, hlo, hhi⟩ | ⟨e, heq⟩
  · rw [heq, pbind_ok]
    exact eof_check_good toks children _
  · rw [heq, pbind_err]
    exact Or.inr ⟨e, rfl⟩

/-- Totality: `parse_toplevel` with the standard fuel never panics and never runs
out of fuel: it returns the atom list or a `ParseError`. -/
theorem parse_toplevel_total (toks : List (Token × Span)) :
    (∃ atoms cur', parse_toplevel toks (parser_fuel toks) = POut.ok atoms cur') ∨
    (∃ e, parse_toplevel toks (parser_fuel toks) = POut.err e) := by
  rcases hp0 : peekTok toks 0 with _ | ⟨t0, sp0⟩
  · simp only [parse_toplevel, hp0]
    exact toplevel_tail_good toks (parser_fuel toks) false 0 (by omega) (by
      unfold parser_fuel; omega)
  · have h1 : 0 < toks.length := peek_some_lt hp0
    cases t0 <;> simp only [parse_toplevel, hp0] <;>
      first
      | exact toplevel_tail_good toks (parser_fuel toks) true 1 (by omega) (by
          unfold parser_fuel; omega)
      | exact toplevel_tail_good toks (parser_fuel toks) false 0 (by omega) (by
          unfold parser_fuel; omega)

/-! Section: Claim C9 -/

/-- C9: for every raw input stream, the full pipeline — `handle_whitespace`
followed by `parse_toplevel` with the standard fuel — returns either the
list of top-level atoms or a `ParseError` value: the `todo!()`,
`unreachable!()` and `.unwrap()` exits (modelled by `POut.panicked`) are
unreachable, and the recursion terminates within the `parser_fuel` bound
(no `POut.nofuel`). -/
theorem c9_parser_total (raw : List (Token × Span)) :
    (∃ atoms cur', parse_source raw = POut.ok atoms cur') ∨
    (∃ e, parse_source raw = POut.err e) :=
  parse_toplevel_total (handle_whitespace raw)

/-! Section: Claim C5: a successful parse never steps over an `Error` token -/

theorem no_err_between_empty {toks : List (Token × Span)} {lo hi : Nat} (h : hi ≤ lo) :
    no_err_between toks lo hi := by
  intro j s sp h1 h2
  omega

theorem no_err_between_union {toks : List (Token × Span)} {a b c : Nat}
    (h1 : no_err_between toks a b) (h2 : no_err_between toks b c) :
    no_err_between toks a c := by
  intro j s sp hj1 hj2
  by_cases hb : j < b
  · exact h1 j s sp hj1 hb
  · exact h2 j s sp (by omega) hj2

theorem no_err_single {toks : List (Token × Span)} {j0 : Nat} {t : Token} {sp0 : Span}
    (hp : peekTok toks j0 = some (t, sp0)) (ht : ∀ s, t ≠ Token.error s) :
    no_err_between toks j0 (j0 + 1) := by
  intro j s sp h1 h2 hc
  obtain rfl : j = j0 := by omega
  rw [hp] at hc
  simp only [Option.some.injEq, Prod.mk.injEq] at hc
  exact ht s hc.1

theorem indent_group_finish_ok_cur {toks : List (Token × Span)} {c : Nat} {sp : Span}
    {cs : List Atom} {a : Atom} {cur' : Nat}
    (h : indent_group_finish toks c sp cs = POut.ok a cur') : cur' = c := by
  rcases cs with _ | ⟨a0, _ | ⟨b0, rest⟩⟩ <;>
    simp only [indent_group_finish] at h <;>
    rcases hl : last_tok_span toks c with _ | es
  all_goals first
    | (rw [hl] at h; simp at h; omega)
    | (rw [hl] at h; simp at h)
    | (simp at h; omega)
    | simp_all
    | (simp only [POut.ok.injEq] at h; omega)

/-- A successful run of any parser function only consumes non-`Error`
tokens: the cursor only moves forward and every position it passes holds a
token other than `Error`. -/
theorem parser_no_skip (fuel : Nat) :
    (∀ toks cur a cur', parse_atom toks cur fuel = POut.ok a cur' →
      cur ≤ cur' ∧ no_err_between toks cur cur') ∧
    (∀ toks cur g cur', parse_explicit_group toks cur fuel = POut.ok g cur' →
      cur ≤ cur' ∧ no_err_between toks cur cur') ∧
    (∀ toks cur as cur', parse_atoms toks cur fuel = POut.ok as cur' →
      cur ≤ cur' ∧ no_err_between toks cur cur') ∧
    (∀ toks cur a cur', parse_maybe_indent_group toks cur fuel = POut.ok a cur' →
      cur ≤ cur' ∧ no_err_between toks cur cur') ∧
    (∀ toks cur as cur', parse_indent_groups toks cur fuel = POut.ok as cur' →
      cur ≤ cur' ∧ no_err_between toks cur cur') ∧
    (∀ toks cur as cur', parse_mig_list toks cur fuel = POut.ok as cur' →
      cur ≤ cur' ∧ no_err_between toks cur cur') := by
  induction fuel with
  | zero =>
    refine ⟨?_, ?_, ?_, ?_, ?_, ?_⟩ <;>
      (intro toks cur a cur' h; exact absurd h (by simp [parse_atom, parse_explicit_group,
        parse_atoms, parse_maybe_indent_group, parse_indent_groups, parse_mig_list]))
  | succ f ih =>
    obtain ⟨ihA, ihE, ihS, ihM, ihG, ihL⟩ := ih
    refine ⟨?_, ?_, ?_, ?_, ?_, ?_⟩
    · -- parse_atom
      intro toks cur a cur' h
      simp only [parse_atom] at h
      rcases hp : peekTok toks cur with _ | ⟨t, sp⟩
      · simp [hp] at h
      · simp only [hp] at h
        cases t with
        | comment => exact absurd h (by simp)
        | parenClose => exact absurd h (by simp)
        | curlyClose => exact absurd h (by simp)
        | bracketClose => exact absurd h (by simp)
        | newline => exact absurd h (by simp)
        | spaces s => exact absurd h (by simp)
        | error s => exact absurd h (by simp)
        | indent => exact absurd h (by simp)
        | dedent => exact absurd h (by simp)
        | parenOpen =>
          cases hE : parse_explicit_group toks cur f with
          | ok g c2 =>
            simp only [hE, pbind_ok] at h
            simp only [POut.ok.injEq] at h
            obtain ⟨rfl, rfl⟩ := h
            exact ihE toks cur g c2 hE
          | err e => simp [hE, pbind_err] at h
          | panicked => simp [hE, pbind_panicked] at h
          | nofuel => simp [hE, pbind_nofuel] at h
        | curlyOpen =>
          cases hE : parse_explicit_group toks cur f with
          | ok g c2 =>
            simp only [hE, pbind_ok] at h
            simp only [POut.ok.injEq] at h
            obtain ⟨rfl, rfl⟩ := h
            exact ihE toks cur g c2 hE
          | err e => simp [hE, pbind_err] at h
          | panicked => simp [hE, pbind_panicked] at h
          | nofuel => simp [hE, pbind_nofuel] at h
        | bracketOpen =>
          cases hE : parse_explicit_group toks cur f with
          | ok g c2 =>
            simp only [hE, pbind_ok] at h
            simp only [POut.ok.injEq] at h
            obtain ⟨rfl, rfl⟩ := h
            exact ihE toks cur g c2 hE
          | err e => simp [hE, pbind_err] at h
          | panicked => simp [hE, pbind_panicked] at h
          | nofuel => simp [hE, pbind_nofuel] at h
        | string s =>
          have h2 : Atom.string s sp = a ∧ cur + 1 = cur' := by simpa using h
          obtain ⟨rfl, rfl⟩ := h2
          exact ⟨by omega, no_err_single hp (by simp)⟩
        | identifier ident =>
          rcases hp2 : peekTok toks (cur + 1) with _ | ⟨t2, sp2⟩
          · simp only [hp2] at h
            simp only [POut.ok.injEq] at h
            obtain ⟨rfl, rfl⟩ := h
            exact ⟨by omega, no_err_single hp (by simp)⟩
          · simp only [hp2] at h
            split_ifs at h with ho hadj
            · cases hE : parse_explicit_group toks (cur + 1) f with
              | ok g c2 =>
                simp only [hE, pbind_ok] at h
                simp only [POut.ok.injEq] at h
                obtain ⟨rfl, rfl⟩ := h
                obtain ⟨hle, hne⟩ := ihE toks (cur + 1) g c2 hE
                exact ⟨by omega, no_err_between_union (no_err_single hp (by simp)) hne⟩
              | err e => simp [hE, pbind_err] at h
              | panicked => simp [hE, pbind_panicked] at h
              | nofuel => simp [hE, pbind_nofuel] at h
            · simp only [POut.ok.injEq] at h
              obtain ⟨rfl, rfl⟩ := h
              exact ⟨by omega, no_err_single hp (by simp)⟩
            · simp only [POut.ok.injEq] at h
              obtain ⟨rfl, rfl⟩ := h
              exact ⟨by omega, no_err_single hp (by simp)⟩
    · -- parse_explicit_group
      intro toks cur g cur' h
      simp only [parse_explicit_group] at h
      rcases hp : peekTok toks cur with _ | ⟨t, sp⟩
      · simp [hp] at h
      · simp only [hp] at h
        cases hS : parse_atoms toks (cur + 1) f with
        | ok children c1 =>
          simp only [hS, pbind_ok] at h
          obtain ⟨hle1, hne1⟩ := ihS toks (cur + 1) children c1 hS
          cases t with
          | identifier s => exact absurd h (by simp)
          | string s => exact absurd h (by simp)
          | comment => exact absurd h (by simp)
          | parenClose => exact absurd h (by simp)
          | curlyClose => exact absurd h (by simp)
          | bracketClose => exact absurd h (by simp)
          | newline => exact absurd h (by simp)
          | spaces s => exact absurd h (by simp)
          | error s => exact absurd h (by simp)
          | indent => exact absurd h (by simp)
          | dedent => exact absurd h (by simp)
          | parenOpen =>
            simp only [close_group, expect] at h
            rcases hp2 : peekTok toks c1 with _ | ⟨t2, sp2⟩
            · simp [hp2] at h
            · simp only [hp2] at h
              split_ifs at h with he
              · subst he
                simp only [POut.ok.injEq] at h
                obtain ⟨rfl, rfl⟩ := h
                refine ⟨by omega, no_err_between_union (no_err_single hp (by simp))
                  (no_err_between_union hne1 (no_err_single hp2 (by simp)))⟩
          | curlyOpen =>
            simp only [close_group, expect] at h
            rcases hp2 : peekTok toks c1 with _ | ⟨t2, sp2⟩
            · simp [hp2] at h
            · simp only [hp2] at h
              split_ifs at h with he
              · subst he
                simp only [POut.ok.injEq] at h
                obtain ⟨rfl, rfl⟩ := h
                refine ⟨by omega, no_err_between_union (no_err_single hp (by simp))
                  (no_err_between_union hne1 (no_err_single hp2 (by simp)))⟩
          | bracketOpen =>
            simp only [close_group, expect] at h
            rcases hp2 : peekTok toks c1 with _ | ⟨t2, sp2⟩
            · simp [hp2] at h
            · simp only [hp2] at h
              split_ifs at h with he
              · subst he
                simp only [POut.ok.injEq] at h
                obtain ⟨rfl, rfl⟩ := h
                refine ⟨by omega, no_err_between_union (no_err_single hp (by simp))
                  (no_err_between_union hne1 (no_err_single hp2 (by simp)))⟩
        | err e => simp [hS, pbind_err] at h
        | panicked => simp [hS, pbind_panicked] at h
        | nofuel => simp [hS, pbind_nofuel] at h
    · -- parse_atoms
      intro toks cur as cur' h
      simp only [parse_atoms] at h
      by_cases hstart : atom_start toks cur = true
      · rw [hstart] at h
        simp only [if_true] at h
        cases hA : parse_atom toks cur f with
        | ok a c1 =>
          simp only [hA, pbind_ok] at h
          cases hS2 : parse_atoms toks c1 f with
          | ok rest c2 =>
            simp only [hS2, pbind_ok] at h
            simp only [POut.ok.injEq] at h
            obtain ⟨rfl, rfl⟩ := h
            obtain ⟨hle1, hne1⟩ := ihA toks cur a c1 hA
            obtain ⟨hle2, hne2⟩ := ihS toks c1 rest c2 hS2
            exact ⟨by omega, no_err_between_union hne1 hne2⟩
          | err e => simp [hS2, pbind_err] at h
          | panicked => simp [hS2, pbind_panicked] at h
          | nofuel => simp [hS2, pbind_nofuel] at h
        | err e => simp [hA, pbind_err] at h
        | panicked => simp [hA, pbind_panicked] at h
        | nofuel => simp [hA, pbind_nofuel] at h
      · have hsf : atom_start toks cur = false := by simpa using hstart
        rw [hsf] at h
        simp only [Bool.false_eq_true, if_false, POut.ok.injEq] at h
        obtain ⟨rfl, rfl⟩ := h
        exact ⟨le_refl _, no_err_between_empty (le_refl _)⟩
    · -- parse_maybe_indent_group
      intro toks cur a cur' h
      simp only [parse_maybe_indent_group] at h
      rcases hp : peekTok toks cur with _ | ⟨t0, sp0⟩
      · simp [hp] at h
      · simp only [hp] at h
        cases hS : parse_atoms toks cur f with
        | ok children c1 =>
          simp only [hS, pbind_ok] at h
          obtain ⟨hle1, hne1⟩ := ihS toks cur children c1 hS
          rcases hp1 : peekTok toks c1 with _ | ⟨t1, sp1⟩
          · simp only [hp1] at h
            have := indent_group_finish_ok_cur h
            subst this
            exact ⟨hle1, hne1⟩
          · simp only [hp1] at h
            cases t1 <;>
              first
              | · -- non-newline arms: straight to the finish
                  have := indent_group_finish_ok_cur h
                  subst this
                  exact ⟨hle1, hne1⟩
              | · -- newline
                  rcases hp2 : peekTok toks (c1 + 1) with _ | ⟨t2, sp2⟩
                  · simp only [hp2] at h
                    have := indent_group_finish_ok_cur h
                    subst this
                    exact ⟨by omega, no_err_between_union hne1
                      (no_err_single hp1 (by simp))⟩
                  · simp only [hp2] at h
                    cases t2 <;>
                      first
                      | · have := indent_group_finish_ok_cur h
                          subst this
                          exact ⟨by omega, no_err_between_union hne1
                            (no_err_single hp1 (by simp))⟩
                      | · -- indent
                          cases hG : parse_indent_groups toks (c1 + 2) f with
                          | ok more c2 =>
                            simp only [hG, pbind_ok] at h
                            obtain ⟨hle2, hne2⟩ := ihG toks (c1 + 2) more c2 hG
                            have hmid : no_err_between toks cur c2 := by
                              refine no_err_between_union hne1 (no_err_between_union
                                (no_err_single hp1 (by simp)) (no_err_between_union
                                  (no_err_single hp2 (by simp)) hne2))
                            rcases hp3 : peekTok toks c2 with _ | ⟨t3, sp3⟩
                            · simp only [hp3] at h
                              have := indent_group_finish_ok_cur h
                              subst this
                              exact ⟨by omega, hmid⟩
                            · simp only [hp3] at h
                              cases t3 <;>
                                first
                                | · simp only [POut.ok.injEq] at h
                                    obtain ⟨rfl, rfl⟩ := h
                                    exact ⟨by omega, hmid⟩
                                | · -- dedent
                                    simp only [POut.ok.injEq] at h
                                    obtain ⟨rfl, rfl⟩ := h
                                    exact ⟨by omega, no_err_between_union hmid
                                      (no_err_single hp3 (by simp))⟩
                          | err e => simp [hG, pbind_err] at h
                          | panicked => simp [hG, pbind_panicked] at h
                          | nofuel => simp [hG, pbind_nofuel] at h
        | err e => simp [hS, pbind_err] at h
        | panicked => simp [hS, pbind_panicked] at h
        | nofuel => simp [hS, pbind_nofuel] at h
    · -- parse_indent_groups
      intro toks cur as cur' h
      simp only [parse_indent_groups] at h
      by_cases hstart : atom_start toks cur = true
      · rw [hstart] at h
        simp only [if_true] at h
        cases hM : parse_maybe_indent_group toks cur f with
        | ok a c1 =>
          simp only [hM, pbind_ok] at h
          obtain ⟨hle1, hne1⟩ := ihM toks cur a c1 hM
          rcases hp : peekTok toks c1 with _ | ⟨t1, sp1⟩
          · simp only [hp] at h
            cases hG : parse_indent_groups toks c1 f with
            | ok rest c2 =>
              simp only [hG, pbind_ok] at h
              simp only [POut.ok.injEq] at h
              obtain ⟨rfl, rfl⟩ := h
              obtain ⟨hle2, hne2⟩ := ihG toks c1 rest c2 hG
              exact ⟨by omega, no_err_between_union hne1 hne2⟩
            | err e => simp [hG, pbind_err] at h
            | panicked => simp [hG, pbind_panicked] at h
            | nofuel => simp [hG, pbind_nofuel] at h
          · simp only [hp] at h
            cases t1 <;>
              first
              | · -- dedent: early exit
                  simp only [POut.ok.injEq] at h
                  obtain ⟨rfl, rfl⟩ := h
                  exact ⟨hle1, hne1⟩
              | · cases hG : parse_indent_groups toks c1 f with
                  | ok rest c2 =>
                    simp only [hG, pbind_ok] at h
                    simp only [POut.ok.injEq] at h
                    obtain ⟨rfl, rfl⟩ := h
                    obtain ⟨hle2, hne2⟩ := ihG toks c1 rest c2 hG
                    exact ⟨by omega, no_err_between_union hne1 hne2⟩
                  | err e => simp [hG, pbind_err] at h
                  | panicked => simp [hG, pbind_panicked] at h
                  | nofuel => simp [hG, pbind_nofuel] at h
        | err e => simp [hM, pbind_err] at h
        | panicked => simp [hM, pbind_panicked] at h
        | nofuel => simp [hM, pbind_nofuel] at h
      · have hsf : atom_start toks cur = false := by simpa using hstart
        rw [hsf] at h
        simp only [Bool.false_eq_true, if_false, POut.ok.injEq] at h
        obtain ⟨rfl, rfl⟩ := h
        exact ⟨le_refl _, no_err_between_empty (le_refl _)⟩
    · -- parse_mig_list
      intro toks cur as cur' h
      simp only [parse_mig_list] at h
      by_cases hstart : atom_start toks cur = true
      · rw [hstart] at h
        simp only [if_true] at h
        cases hM : parse_maybe_indent_group toks cur f with
        | ok a c1 =>
          simp only [hM, pbind_ok] at h
          cases hL2 : parse_mig_list toks c1 f with
          | ok rest c2 =>
            simp only [hL2, pbind_ok] at h
            simp only [POut.ok.injEq] at h
            obtain ⟨rfl, rfl⟩ := h
            obtain ⟨hle1, hne1⟩ := ihM toks cur a c1 hM
            obtain ⟨hle2, hne2⟩ := ihL toks c1 rest c2 hL2
            exact ⟨by omega, no_err_between_union hne1 hne2⟩
          | err e => simp [hL2, pbind_err] at h
          | panicked => simp [hL2, pbind_panicked] at h
          | nofuel => simp [hL2, pbind_nofuel] at h
        | err e => simp [hM, pbind_err] at h
        | panicked => simp [hM, pbind_panicked] at h
        | nofuel => simp [hM, pbind_nofuel] at h
      · have hsf : atom_start toks cur = false := by simpa using hstart
        rw [hsf] at h
        simp only [Bool.false_eq_true, if_false, POut.ok.injEq] at h
        obtain ⟨rfl, rfl⟩ := h
        exact ⟨le_refl _, no_err_between_empty (le_refl _)⟩

/-- If the tail of `parse_toplevel` succeeds, every position of the stream
holds a non-`Error` token: the run consumed the whole stream, and each
consumed position was checked against a non-`Error` shape. -/
theorem toplevel_tail_no_err (toks : List (Token × Span)) (fuel : Nat) (b : Bool)
    (cur0 : Nat) (atoms : List Atom) (cur' : Nat)
    (hb : no_err_between toks 0 cur0)
    (h : pbind (parse_mig_list toks cur0 fuel) (fun children cur1 =>
        match peekTok toks (match peekTok toks cur1 with
          | some (Token.dedent, _) => if b then cur1 + 1 else cur1
          | _ => cur1) with
        | some (tok, span) => POut.err (ParseError.expectedEofFoundToken tok span)
        | none => POut.ok children (match peekTok toks cur1 with
          | some (Token.dedent, _) => if b then cur1 + 1 else cur1
          | _ => cur1)) = POut.ok atoms cur') :
    no_err_between toks 0 toks.length := by
  cases hL : parse_mig_list toks cur0 fuel with
  | ok children cur1 =>
    simp only [hL, pbind_ok] at h
    obtain ⟨hle1, hne1⟩ := (parser_no_skip fuel).2.2.2.2.2 toks cur0 children cur1 hL
    have hfront : no_err_between toks 0 cur1 := no_err_between_union hb hne1
    rcases hp1 : peekTok toks cur1 with _ | ⟨t1, sp1⟩
    · simp only [hp1] at h
      have hlen := peek_none_ge hp1
      exact fun j s sp hj1 hj2 => hfront j s sp hj1 (by omega)
    · cases t1 with
      | identifier s => simp [hp1] at h
      | string s => simp [hp1] at h
      | comment => simp [hp1] at h
      | parenOpen => simp [hp1] at h
      | parenClose => simp [hp1] at h
      | curlyOpen => simp [hp1] at h
      | curlyClose => simp [hp1] at h
      | bracketOpen => simp [hp1] at h
      | bracketClose => simp [hp1] at h
      | newline => simp [hp1] at h
      | spaces s => simp [hp1] at h
      | error s => simp [hp1] at h
      | indent => simp [hp1] at h
      | dedent =>
        cases b with
        | false => simp [hp1] at h
        | true =>
          simp only [hp1, if_true] at h
          rcases hp2 : peekTok toks (cur1 + 1) with _ | ⟨t2, sp2⟩
          · simp only [hp2] at h
            have hlen := peek_none_ge hp2
            have hcur1 : no_err_between toks cur1 (cur1 + 1) :=
              no_err_single hp1 (by simp)
            exact fun j s sp hj1 hj2 =>
              (no_err_between_union hfront hcur1) j s sp hj1 (by omega)
          · simp [hp2] at h
  | err e => simp [hL, pbind_err] at h
  | panicked => simp [hL, pbind_panicked] at h
  | nofuel => simp [hL, pbind_nofuel] at h

/-- A successful `parse_toplevel` run implies the stream holds no `Error`
token at all. -/
theorem parse_toplevel_ok_no_err (toks : List (Token × Span)) (fuel : Nat)
    (atoms : List Atom) (cur' : Nat)
    (h : parse_toplevel toks fuel = POut.ok atoms cur') :
    no_err_between toks 0 toks.length := by
  rcases hp0 : peekTok toks 0 with _ | ⟨t0, sp0⟩
  · simp only [parse_toplevel, hp0] at h
    exact toplevel_tail_no_err toks fuel false 0 atoms cur'
      (no_err_between_empty (le_refl 0)) h
  · cases t0 <;> simp only [parse_toplevel, hp0] at h <;>
      first
      | exact toplevel_tail_no_err toks fuel true 1 atoms cur'
          (no_err_single hp0 (by simp)) h
      | exact toplevel_tail_no_err toks fuel false 0 atoms cur'
          (no_err_between_empty (le_refl 0)) h

/-! Section: Claim C5 -/

/-- C5 counterexample: a stream holding just an `Error` token makes
`parse_toplevel` fail, but NOT with a distinct "invalid input" failure:
the `ParseError` type (src/parser.rs:6-20) has no such variant, and the
`Error` token is reported through the ordinary trailing-token error
`ExpectedEofFoundToken` — refuting the claim that it is "not reported as
an ordinary mismatched-token or trailing-token error". -/
theorem c5_counterexample :
    parse_toplevel [(Token.error "Invalid indentation", ⟨0, 1⟩)]
        (parser_fuel [(Token.error "Invalid indentation", ⟨0, 1⟩)]) =
      POut.err (ParseError.expectedEofFoundToken
        (Token.error "Invalid indentation") ⟨0, 1⟩) := rfl

/-- C5 (amended): whenever the logical stream contains an `Error` token,
`parse_toplevel` (with the standard fuel) returns a hard parse failure —
it can never return `ok` because no parsing step consumes an `Error`
token; the failure is however reported through the ordinary three-variant
error taxonomy (typically with the `Error` token as the `found` token of
`MismatchedToken` or `ExpectedEofFoundToken`), not as a distinct
"invalid input" failure. -/
theorem c5_error_token_fails_parse (toks : List (Token × Span)) (s : String) (sp : Span)
    (h : (Token.error s, sp) ∈ toks) :
    ∃ e, parse_toplevel toks (parser_fuel toks) = POut.err e := by
  rcases parse_toplevel_total toks with ⟨atoms, cur', hok⟩ | ⟨e, he⟩
  · exfalso
    obtain ⟨j, hj⟩ := List.mem_iff_getElem?.mp h
    have hjlt : j < toks.length := (List.getElem?_eq_some.mp hj).1
    exact parse_toplevel_ok_no_err toks (parser_fuel toks) atoms cur' hok j s sp
      (by omega) hjlt hj
  · exact ⟨e, he⟩

/-- C5 witness: the amended failure property at the concrete one-`Error`
stream. -/
theorem c5_witness :
    ∃ e, parse_toplevel [(Token.error "Invalid indentation", ⟨0, 1⟩)]
        (parser_fuel [(Token.error "Invalid indentation", ⟨0, 1⟩)]) = POut.err e :=
  c5_error_token_fails_parse [(Token.error "Invalid indentation", ⟨0, 1⟩)]
    "Invalid indentation" ⟨0, 1⟩ (by simp)

/-! Section: Claim C8 -/

/-- With at least two children the fall-through tail of
`parse_maybe_indent_group` always wraps them in an `Indentation` group
ending at the previous token's span. -/
theorem indent_group_finish_multi (toks : List (Token × Span)) (cur : Nat) (sp : Span)
    (cs : List Atom) (hlen : 2 ≤ cs.length) (h1 : 1 ≤ cur) (h2 : cur ≤ toks.length) :
    indent_group_finish toks cur sp cs =
      POut.ok (Atom.group (SGroup.mk GroupType.indentation sp cs
        (toks.get ⟨cur - 1, by omega⟩).2)) cur := by
  have hlast : last_tok_span toks cur = some (toks.get ⟨cur - 1, by omega⟩).2 := by
    unfold last_tok_span
    rw [if_neg (by omega)]
    rw [List.getElem?_eq_getElem (by omega)]
    simp [List.get_eq_getElem]
  rcases cs with _ | ⟨a, _ | ⟨b, rest⟩⟩
  · exact absurd hlen (by simp)
  · exact absurd hlen (by simp)
  · simp only [indent_group_finish, hlast]

/-- C8: (1) a line whose atom run produced exactly one atom, not followed
by a `Newline`, yields that atom unwrapped; (2) likewise when the
`Newline` is present but no `Indent` follows it (the newline is consumed);
(3) a line with two or more atoms and no following `Newline` yields an
explicit `Indentation` group; (4) so does a line with two or more atoms
terminated by a `Newline` with no `Indent` after it — the ordinary
mid-file line, whose newline is consumed before the group is built;
(5) a nonempty line followed by a nonempty indented block always yields
an explicit `Indentation` group containing the line atoms followed by the
block results. -/
theorem c8_singleton_collapse :
    (∀ (toks : List (Token × Span)) (cur fuel : Nat) (a : Atom) (cur1 : Nat)
        (t0 : Token) (sp0 : Span),
      peekTok toks cur = some (t0, sp0) →
      parse_atoms toks cur fuel = POut.ok [a] cur1 →
      (∀ sp, peekTok toks cur1 ≠ some (Token.newline, sp)) →
      parse_maybe_indent_group toks cur (fuel + 1) = POut.ok a cur1) ∧
    (∀ (toks : List (Token × Span)) (cur fuel : Nat) (a : Atom) (cur1 : Nat)
        (t0 : Token) (sp0 sp1 : Span),
      peekTok toks cur = some (t0, sp0) →
      parse_atoms toks cur fuel = POut.ok [a] cur1 →
      peekTok toks cur1 = some (Token.newline, sp1) →
      (∀ sp, peekTok toks (cur1 + 1) ≠ some (Token.indent, sp)) →
      parse_maybe_indent_group toks cur (fuel + 1) = POut.ok a (cur1 + 1)) ∧
    (∀ (toks : List (Token × Span)) (cur fuel : Nat) (children : List Atom) (cur1 : Nat)
        (t0 : Token) (sp0 : Span),
      peekTok toks cur = some (t0, sp0) →
      parse_atoms toks cur fuel = POut.ok children cur1 →
      2 ≤ children.length →
      (∀ sp, peekTok toks cur1 ≠ some (Token.newline, sp)) →
      1 ≤ cur1 → cur1 ≤ toks.length →
      ∃ end_span, parse_maybe_indent_group toks cur (fuel + 1) =
        POut.ok (Atom.group (SGroup.mk GroupType.indentation sp0 children end_span)) cur1) ∧
    (∀ (toks : List (Token × Span)) (cur fuel : Nat) (children : List Atom) (cur1 : Nat)
        (t0 : Token) (sp0 sp1 : Span),
      peekTok toks cur = some (t0, sp0) →
      parse_atoms toks cur fuel = POut.ok children cur1 →
      2 ≤ children.length →
      peekTok toks cur1 = some (Token.newline, sp1) →
      (∀ sp, peekTok toks (cur1 + 1) ≠ some (Token.indent, sp)) →
      ∃ end_span, parse_maybe_indent_group toks cur (fuel + 1) =
        POut.ok (Atom.group (SGroup.mk GroupType.indentation sp0 children end_span))
          (cur1 + 1)) ∧
    (∀ (toks : List (Token × Span)) (cur fuel : Nat) (children : List Atom) (cur1 : Nat)
        (more : List Atom) (cur2 : Nat) (t0 : Token) (sp0 sp1 sp2 : Span),
      peekTok toks cur = some (t0, sp0) →
      parse_atoms toks cur fuel = POut.ok children cur1 →
      children ≠ [] →
      peekTok toks cur1 = some (Token.newline, sp1) →
      peekTok toks (cur1 + 1) = some (Token.indent, sp2) →
      parse_indent_groups toks (cur1 + 2) fuel = POut.ok more cur2 →
      more ≠ [] →
      1 ≤ cur2 → cur2 ≤ toks.length →
      ∃ end_span cur3, parse_maybe_indent_group toks cur (fuel + 1) =
        POut.ok (Atom.group (SGroup.mk GroupType.indentation sp0
          (children ++ more) end_span)) cur3) := by
  refine ⟨?_, ?_, ?_, ?_, ?_⟩
  · intro toks cur fuel a cur1 t0 sp0 hpeek hatoms hno
    simp only [parse_maybe_indent_group, hpeek, hatoms, pbind_ok]
    rfl
  · intro toks cur fuel a cur1 t0 sp0 sp1 hpeek hatoms hnl hno
    simp only [parse_maybe_indent_group, hpeek, hatoms, pbind_ok, hnl]
    rfl
  · intro toks cur fuel children cur1 t0 sp0 hpeek hatoms hlen2 hno h1 h2
    refine ⟨(toks.get ⟨cur1 - 1, by omega⟩).2, ?_⟩
    simp only [parse_maybe_indent_group, hpeek, hatoms, pbind_ok]
    exact indent_group_finish_multi toks cur1 sp0 children hlen2 h1 h2
  · intro toks cur fuel children cur1 t0 sp0 sp1 hpeek hatoms hlen2 hnl hno
    have hcur1 : cur1 < toks.length := peek_some_lt hnl
    refine ⟨(toks.get ⟨cur1 + 1 - 1, by omega⟩).2, ?_⟩
    simp only [parse_maybe_indent_group, hpeek, hatoms, pbind_ok, hnl]
    exact indent_group_finish_multi toks (cur1 + 1) sp0 children hlen2 (by omega) (by omega)
  · intro toks cur fuel children cur1 more cur2 t0 sp0 sp1 sp2 hpeek hatoms hch hnl hind
      hig hmore h1 h2
    have hlen2 : 2 ≤ (children ++ more).length := by
      have hc := List.length_pos.mpr hch
      have hm := List.length_pos.mpr hmore
      simp only [List.length_append]
      omega
    simp only [parse_maybe_indent_group, hpeek, hatoms, pbind_ok, hnl, hind, hig]
    rcases hp3 : peekTok toks cur2 with _ | ⟨t3, sp3⟩
    · simp only [hp3]
      exact ⟨_, cur2, indent_group_finish_multi toks cur2 sp0 (children ++ more) hlen2 h1 h2⟩
    · cases t3 <;> simp only [hp3] <;>
        first
        | exact ⟨sp3, cur2, rfl⟩
        | exact ⟨sp3, cur2 + 1, rfl⟩

/-- C8 witness: the shapes at concrete logical streams: a singleton line
collapses to its atom, a two-atom line wraps into an `Indentation` group
(both with and without a terminating newline), and a line with an
indented block wraps line atoms and block results into one `Indentation`
group. -/
theorem c8_witness :
    parse_maybe_indent_group c8_single 0 8 = POut.ok (Atom.identifier "a" ⟨0, 1⟩) 1 ∧
    (∃ end_span, parse_maybe_indent_group c8_double 0 8 =
      POut.ok (Atom.group (SGroup.mk GroupType.indentation ⟨0, 1⟩
        [Atom.identifier "a" ⟨0, 1⟩, Atom.identifier "b" ⟨2, 3⟩] end_span)) 2) ∧
    (∃ end_span, parse_maybe_indent_group c8_line2 0 8 =
      POut.ok (Atom.group (SGroup.mk GroupType.indentation ⟨0, 1⟩
        [Atom.identifier "a" ⟨0, 1⟩, Atom.identifier "b" ⟨2, 3⟩] end_span)) 3) ∧
    (∃ end_span cur3, parse_maybe_indent_group c8_block 0 8 =
      POut.ok (Atom.group (SGroup.mk GroupType.indentation ⟨0, 1⟩
        ([Atom.identifier "a" ⟨0, 1⟩] ++ [Atom.identifier "b" ⟨4, 5⟩]) end_span)) cur3) :=
  ⟨c8_singleton_collapse.1 c8_single 0 7 (Atom.identifier "a" ⟨0, 1⟩) 1
      (Token.identifier "a") ⟨0, 1⟩ rfl rfl (by intro sp; simp [peekTok, c8_single]),
   c8_singleton_collapse.2.2.1 c8_double 0 7
      [Atom.identifier "a" ⟨0, 1⟩, Atom.identifier "b" ⟨2, 3⟩] 2
      (Token.identifier "a") ⟨0, 1⟩ rfl rfl (by decide)
      (by intro sp; simp [peekTok, c8_double]) (by decide) (by decide),
   c8_singleton_collapse.2.2.2.1 c8_line2 0 7
      [Atom.identifier "a" ⟨0, 1⟩, Atom.identifier "b" ⟨2, 3⟩] 2
      (Token.identifier "a") ⟨0, 1⟩ ⟨3, 4⟩ rfl rfl (by decide) rfl
      (by intro sp; simp [peekTok, c8_line2]),
   c8_singleton_collapse.2.2.2.2 c8_block 0 7 [Atom.identifier "a" ⟨0, 1⟩] 1
      [Atom.identifier "b" ⟨4, 5⟩] 4 (Token.identifier "a") ⟨0, 1⟩ ⟨1, 2⟩ ⟨2, 4⟩
      rfl rfl (by simp) rfl rfl rfl (by simp) (by decide) (by decide)⟩

end SweetExpr
